import Mathlib

/-!
Verification development for the NomanAI remote-execution and orchestration
engine.  Python strings are embedded as `List Char` (wrapped in `String` at
the API surface); Python `dict` results become Lean structures; fallible or
effectful operations take their environment (executor, file reader) as an
explicit function parameter.  Every definition whose name matches a Python
symbol is a direct translation of that symbol's source.
-/

namespace NomanAI

/-- Characters the Python `str`-mode regex class `\s` (and `str.strip`)
treats as whitespace: the ASCII whitespace and separator controls plus the
common Unicode whitespace code points. -/
def pyIsSpace (c : Char) : Bool :=
  c = ' ' || ('\x09' ≤ c && c ≤ '\x0d') || ('\x1c' ≤ c && c ≤ '\x1f') ||
  c = '\x85' || c = '\xa0' || c = ' ' ||
  (' ' ≤ c && c ≤ ' ') || c = ' ' || c = ' ' ||
  c = ' ' || c = ' ' || c = '　'

/-- Word characters for the regex token `\w` / word boundary `\b`
(ASCII letters, digits and underscore). -/
def isWordChar (c : Char) : Bool :=
  c.isAlpha || c.isDigit || c = '_'

/-- Line boundaries recognised by Python `str.splitlines`. -/
def isLineBreak (c : Char) : Bool :=
  c = '\n' || c = '\r' || c = '\x0b' || c = '\x0c' ||
  c = '\x1c' || c = '\x1d' || c = '\x1e' ||
  c = '\x85' || c = ' ' || c = ' '

/-- Case-insensitive character comparison, as used by a regex compiled
with `re.I` (ASCII case folding). -/
def ciCharEq (a b : Char) : Bool := a.toLower == b.toLower

/-- Word-ness of the character preceding a position (`none` = start of
text, which counts as non-word). -/
def prevIsWord (prev : Option Char) : Bool :=
  match prev with | some c => isWordChar c | none => false

/-- Word-ness of the character at a position (end of text counts as
non-word). -/
def headIsWord (cs : List Char) : Bool :=
  match cs with | c :: _ => isWordChar c | [] => false

/-- The regex word-boundary test `\b` between a preceding character
(`none` at the start of the text) and the remaining input. -/
def wordBoundaryAfter (prev : Option Char) (cs : List Char) : Bool :=
  prevIsWord prev != headIsWord cs

/-- Auxiliary loop of `pySplitlines`: `acc` holds the current line
reversed; a `"\r\n"` pair is one boundary; after a boundary at the very
end of the text no empty trailing piece is produced. -/
def slAux : List Char → List Char → List (List Char)
  | acc, [] => [acc.reverse]
  | acc, c :: rest =>
    if c = '\r' then
      match rest with
      | [] => [acc.reverse]
      | c2 :: r =>
        if c2 = '\n' then
          match r with
          | [] => [acc.reverse]
          | _ :: _ => acc.reverse :: slAux [] r
        else
          acc.reverse :: slAux [] (c2 :: r)
    else if isLineBreak c then
      match rest with
      | [] => [acc.reverse]
      | _ :: _ => acc.reverse :: slAux [] rest
    else
      slAux (c :: acc) rest

/-- Python `str.splitlines()`: split on line boundaries, no trailing empty
piece for a trailing boundary, `[]` on the empty string. -/
def pySplitlines (cs : List Char) : List (List Char) :=
  match cs with
  | [] => []
  | _ :: _ => slAux [] cs

/-- All ways the regex fragment `\s*` can consume a whitespace prefix of
`cs`, starting with the preceding character `prev`; each alternative is
(the new preceding character, the remaining input).  The first entry is
the zero-width alternative. -/
def wsAlts (prev : Option Char) : List Char → List (Option Char × List Char)
  | [] => [(prev, [])]
  | c :: cs =>
    (prev, c :: cs) :: (if pyIsSpace c then wsAlts (some c) cs else [])

/-- Match the literal `key` case-insensitively at the head of `cs`
(threading the preceding character), then test the word boundary `\b`,
i.e. the tail of the regex `{re.escape(key)}\b` under `re.I`. -/
def matchKeyFrom (key : List Char) (prev : Option Char) (cs : List Char) : Bool :=
  match key, cs with
  | [], _ => wordBoundaryAfter prev cs
  | _ :: _, [] => false
  | k :: ks, c :: cs' => ciCharEq k c && matchKeyFrom ks (some c) cs'

/-- `re.compile(rf"^\s*#?\s*{re.escape(key)}\b", re.I).match(line)` as a
boolean: the line-matching test used by `set_config_line`. -/
def setPatMatch (key line : List Char) : Bool :=
  (wsAlts none line).any fun pc1 =>
    ((pc1 :: (match pc1.2 with
              | '#' :: r => [(some '#', r)]
              | _ => [])) : List (Option Char × List Char)).any fun pc2 =>
      (wsAlts pc2.1 pc2.2).any fun pc3 =>
        matchKeyFrom key pc3.1 pc3.2

/-- The replacement loop of `set_config_line`: rebuild the line list,
replacing every line matched by `setPatMatch key` with the canonical line
`canon`, and report whether any line matched. -/
def sclLoop (key canon : List Char) : List (List Char) → List (List Char) × Bool
  | [] => ([], false)
  | line :: rest =>
    let r := sclLoop key canon rest
    if setPatMatch key line then (canon :: r.1, true) else (line :: r.1, r.2)

/-- `"\n".join(...)` on the embedded line list. -/
def joinNL : List (List Char) → List Char
  | [] => []
  | [l] => l
  | l :: ls => l ++ '\n' :: joinNL ls

/-- `l.endswith("\n")` on an embedded string. -/
def endsWithNLChar (l : List Char) : Bool := l.getLast? == some '\n'

/-- The right-hand side of the `changed` comparison in `set_config_line`:
`current if current.endswith("\n") else (current + ("\n" if current else ""))`,
i.e. the old content after trailing-newline normalization. -/
def pyNormalizeTrailing (current : List Char) : List Char :=
  if endsWithNLChar current then current
  else current ++ (match current with | [] => [] | _ :: _ => ['\n'])

/-- The line list `out` built by `set_config_line`: split into lines,
replace every line matching `^\s*#?\s*key\b` (case-insensitive) with
`f"{key} {value}"`, and append the canonical line when none matched
(`if not found: out.append(...)`). -/
def sclOut (current key value : List Char) : List (List Char) :=
  if (sclLoop key (key ++ ' ' :: value) (pySplitlines current)).2 then
    (sclLoop key (key ++ ' ' :: value) (pySplitlines current)).1
  else
    (sclLoop key (key ++ ' ' :: value) (pySplitlines current)).1 ++
      [key ++ ' ' :: value]

/-- The string `new` built by `set_config_line`:
`"\n".join(out) + ("\n" if not (out and out[-1].endswith("\n")) else "")`. -/
def sclNew (current key value : List Char) : List Char :=
  joinNL (sclOut current key value) ++
    (if !(!(sclOut current key value).isEmpty &&
          endsWithNLChar ((sclOut current key value).getLast?.getD []))
     then ['\n'] else [])

/-- Core of `file_ops.set_config_line` on embedded strings: the rebuilt
content and the `changed` comparison against the normalized old content. -/
def setConfigLineL (current key value : List Char) : List Char × Bool :=
  (sclNew current key value, sclNew current key value != pyNormalizeTrailing current)

/-- `file_ops.set_config_line(current, key, value) -> (new_content, changed)`. -/
def set_config_line (current key value : String) : String × Bool :=
  let r := setConfigLineL current.data key.data value.data
  (⟨r.1⟩, r.2)

/-! ### `file_ops.verify_config_line`

`re.search(rf"^\s*{key}\s+{value}\b", content, re.M)`: the pattern can only
match at the start of the text or just after a `'\n'` (multiline `^`), so the
search is a disjunction over those anchor positions; `\s` may consume line
breaks, so the match is performed on the whole remaining text. -/

/-- Match a literal (case-sensitively) at the head of the input, threading
the preceding character; returns the new preceding character and rest. -/
def matchLit : List Char → Option Char → List Char → Option (Option Char × List Char)
  | [], p, cs => some (p, cs)
  | _ :: _, _, [] => none
  | l :: ls, _, c :: cs => if l == c then matchLit ls (some c) cs else none

/-- All ways the regex fragment `\s+` (one or more) can consume a
whitespace prefix. -/
def wsPlusAlts (_prev : Option Char) : List Char → List (Option Char × List Char)
  | [] => []
  | c :: cs => if pyIsSpace c then wsAlts (some c) cs else []

/-- Match `\s*{key}\s+{value}\b` starting at one anchor position. -/
def verifyMatchAt (key value : List Char) (p : Option Char) (cs : List Char) : Bool :=
  (wsAlts p cs).any fun pc1 =>
    match matchLit key pc1.1 pc1.2 with
    | none => false
    | some pc2 =>
      (wsPlusAlts pc2.1 pc2.2).any fun pc3 =>
        match matchLit value pc3.1 pc3.2 with
        | none => false
        | some pc4 => wordBoundaryAfter pc4.1 pc4.2

/-- The anchor positions after each `'\n'` (multiline `^`), as
(preceding character, remaining text) pairs. -/
def anchorsAux : List Char → List (Option Char × List Char)
  | [] => []
  | c :: cs => (if c = '\n' then [(some '\n', cs)] else []) ++ anchorsAux cs

/-- `file_ops.verify_config_line(content, key, value) -> bool`. -/
def verify_config_line (content key value : String) : Bool :=
  ((none, content.data) :: anchorsAux content.data).any fun pc =>
    verifyMatchAt key.data value.data pc.1 pc.2

/-! ### The command allow-list (`tools.ALLOWED_CMD_PATTERNS`, `tools.cmd_allowed`)

A small regular-expression syntax with a Brzozowski-derivative matcher; each
Python pattern (all of the form `^...$`, applied with `re.match` to a string
without newlines) becomes a full-match regular expression. -/

/-- Regular expressions: empty language, empty string, character class,
concatenation, alternation, Kleene star. -/
inductive RE where
  | emp : RE
  | eps : RE
  | cls (p : Char → Bool) : RE
  | seq (r1 r2 : RE) : RE
  | alt (r1 r2 : RE) : RE
  | star (r : RE) : RE

/-- Does the regular expression accept the empty string? -/
def RE.nullable : RE → Bool
  | .emp => false
  | .eps => true
  | .cls _ => false
  | .seq r1 r2 => r1.nullable && r2.nullable
  | .alt r1 r2 => r1.nullable || r2.nullable
  | .star _ => true

/-- Brzozowski derivative of a regular expression by a character. -/
def RE.deriv : RE → Char → RE
  | .emp, _ => .emp
  | .eps, _ => .emp
  | .cls p, c => if p c then .eps else .emp
  | .seq r1 r2, c =>
    .alt (.seq (r1.deriv c) r2) (if r1.nullable then r2.deriv c else .emp)
  | .alt r1 r2, c => .alt (r1.deriv c) (r2.deriv c)
  | .star r, c => .seq (r.deriv c) (.star r)

/-- Full match of a regular expression against a character list. -/
def RE.fullmatch (r : RE) (cs : List Char) : Bool :=
  (cs.foldl RE.deriv r).nullable

/-- Concatenation of a pattern list. -/
def rcat (rs : List RE) : RE := rs.foldr .seq .eps

/-- Alternation of a pattern list. -/
def ralts (rs : List RE) : RE := rs.foldr .alt .emp

/-- `r+` -/
def rplus (r : RE) : RE := .seq r (.star r)

/-- `r?` -/
def ropt (r : RE) : RE := .alt .eps r

/-- A literal string. -/
def rstr (s : String) : RE :=
  s.data.foldr (fun c r => RE.seq (RE.cls (· == c)) r) RE.eps

/-- A word alternation such as `(reload|restart|...)`. -/
def rword (ws : List String) : RE := ralts (ws.map rstr)

/-- `\s` -/
def wsR : RE := .cls pyIsSpace

/-- `\s+` -/
def wsP : RE := rplus wsR

/-- `\s*` written out as star of `\s` -/
def wsS : RE := .star wsR

/-- `.` (any character except newline, Python default mode) -/
def dotR : RE := .cls (fun c => c != '\n')

/-- `.*` -/
def dotS : RE := .star dotR

/-- `.+` -/
def dotP : RE := rplus dotR

/-- `[a-zA-Z]` -/
def alphaC (c : Char) : Bool := ('a' ≤ c && c ≤ 'z') || ('A' ≤ c && c ≤ 'Z')

/-- `[0-9]` -/
def digitC (c : Char) : Bool := '0' ≤ c && c ≤ '9'

/-- `[a-zA-Z0-9_.-]` (service / package names) -/
def svcC (c : Char) : Bool := alphaC c || digitC c || c = '_' || c = '.' || c = '-'

/-- `[a-zA-Z0-9._/\-]` (paths) -/
def pathC (c : Char) : Bool :=
  alphaC c || digitC c || c = '.' || c = '_' || c = '/' || c = '-'

/-- `[0-9a-zA-Z+=-]` (chmod modes) -/
def modeC (c : Char) : Bool :=
  digitC c || alphaC c || c = '+' || c = '=' || c = '-'

/-- `[tulpn]` -/
def tulpnC (c : Char) : Bool :=
  c = 't' || c = 'u' || c = 'l' || c = 'p' || c = 'n'

/-- `tools.ALLOWED_CMD_PATTERNS`, pattern for pattern (each Python regex
`^...$` is transcribed as a full-match expression, in source order). -/
def ALLOWED_CMD_PATTERNS : List RE := [
  -- ^systemctl\s+(reload|restart|stop|start|status|enable|disable|list-units|is-active|is-enabled|list-unit-files)\s+.*$
  rcat [rstr "systemctl", wsP,
        rword ["reload", "restart", "stop", "start", "status", "enable",
               "disable", "list-units", "is-active", "is-enabled",
               "list-unit-files"], wsP, dotS],
  -- ^service\s+[a-zA-Z0-9_.-]+\s+(reload|restart|stop|start|status)$
  rcat [rstr "service", wsP, rplus (.cls svcC), wsP,
        rword ["reload", "restart", "stop", "start", "status"]],
  -- ^update-rc\.d\s+[a-zA-Z0-9_.-]+\s+(enable|disable).*$
  rcat [rstr "update-rc.d", wsP, rplus (.cls svcC), wsP,
        rword ["enable", "disable"], dotS],
  -- ^chkconfig\s+[a-zA-Z0-9_.-]+\s+(on|off).*$
  rcat [rstr "chkconfig", wsP, rplus (.cls svcC), wsP, rword ["on", "off"], dotS],
  -- ^nohup\s+.*$
  rcat [rstr "nohup", wsP, dotS],
  -- ^grep\s+-[a-zA-Z]*[nE]?\s+.+$
  rcat [rstr "grep", wsP, rstr "-", .star (.cls alphaC),
        ropt (.cls (fun c => c = 'n' || c = 'E')), wsP, dotP],
  -- ^sed\s+-[a-zA-Z]*[in]?\s+'.+'\s+[a-zA-Z0-9._/\-]+$
  rcat [rstr "sed", wsP, rstr "-", .star (.cls alphaC),
        ropt (.cls (fun c => c = 'i' || c = 'n')), wsP,
        rstr "'", dotP, rstr "'", wsP, rplus (.cls pathC)],
  -- ^cat\s+/[a-zA-Z0-9._/\-]+$
  rcat [rstr "cat", wsP, rstr "/", rplus (.cls pathC)],
  -- ^ls\s+-[a-zA-Z]*\s*[a-zA-Z0-9._/\-]*$
  rcat [rstr "ls", wsP, rstr "-", .star (.cls alphaC), wsS, .star (.cls pathC)],
  -- ^test\s+-[a-zA-Z]+\s+[a-zA-Z0-9._/\-]+$
  rcat [rstr "test", wsP, rstr "-", rplus (.cls alphaC), wsP, rplus (.cls pathC)],
  -- ^apt-get\s+(update|install|remove|purge|upgrade|autoremove)\s+.*$
  rcat [rstr "apt-get", wsP,
        rword ["update", "install", "remove", "purge", "upgrade", "autoremove"],
        wsP, dotS],
  -- ^apt\s+(update|install|remove|purge|upgrade|autoremove|search|list|cache)\s+.*$
  rcat [rstr "apt", wsP,
        rword ["update", "install", "remove", "purge", "upgrade", "autoremove",
               "search", "list", "cache"], wsP, dotS],
  -- ^apt-cache\s+(search|show|policy)\s+.*$
  rcat [rstr "apt-cache", wsP, rword ["search", "show", "policy"], wsP, dotS],
  -- ^dpkg\s+-[a-zA-Z]+\s+.*$
  rcat [rstr "dpkg", wsP, rstr "-", rplus (.cls alphaC), wsP, dotS],
  -- ^dpkg\s+-l\s*.*$
  rcat [rstr "dpkg", wsP, rstr "-l", wsS, dotS],
  -- ^ps\s+aux?$
  rcat [rstr "ps", wsP, rstr "au", ropt (.cls (· == 'x'))],
  -- ^pgrep\s+-f\s+.*$
  rcat [rstr "pgrep", wsP, rstr "-f", wsP, dotS],
  -- ^netstat\s+-[a-zA-Z]*[tulpn]*$
  rcat [rstr "netstat", wsP, rstr "-", .star (.cls alphaC), .star (.cls tulpnC)],
  -- ^ss\s+-[a-zA-Z]*[tulpn]*$
  rcat [rstr "ss", wsP, rstr "-", .star (.cls alphaC), .star (.cls tulpnC)],
  -- ^which\s+[a-zA-Z0-9_.-]+$
  rcat [rstr "which", wsP, rplus (.cls svcC)],
  -- ^command\s+-v\s+[a-zA-Z0-9_.-]+$
  rcat [rstr "command", wsP, rstr "-v", wsP, rplus (.cls svcC)],
  -- ^mkdir\s+-[a-zA-Z]*[p]?\s+.*$
  rcat [rstr "mkdir", wsP, rstr "-", .star (.cls alphaC),
        ropt (.cls (· == 'p')), wsP, dotS],
  -- ^chmod\s+[0-9a-zA-Z+=-]+\s+/[a-zA-Z0-9._/\-]+$
  rcat [rstr "chmod", wsP, rplus (.cls modeC), wsP, rstr "/", rplus (.cls pathC)],
  -- ^chown\s+[a-zA-Z0-9_.-]+(:[a-zA-Z0-9_.-]+)?\s+/[a-zA-Z0-9._/\-]+$
  rcat [rstr "chown", wsP, rplus (.cls svcC),
        ropt (rcat [rstr ":", rplus (.cls svcC)]), wsP, rstr "/",
        rplus (.cls pathC)],
  -- ^find\s+/[a-zA-Z0-9._/\-]+\s+.*$
  rcat [rstr "find", wsP, rstr "/", rplus (.cls pathC), wsP, dotS],
  -- ^sleep\s+[0-9]+$
  rcat [rstr "sleep", wsP, rplus (.cls digitC)],
  -- ^openssl\s+.*$
  rcat [rstr "openssl", wsP, dotS],
  -- ^ssh-keygen\s+.*$
  rcat [rstr "ssh-keygen", wsP, dotS],
  -- ^cd\s+[a-zA-Z0-9._/\-]+$
  rcat [rstr "cd", wsP, rplus (.cls pathC)],
  -- ^pwd$
  rstr "pwd",
  -- ^touch\s+[a-zA-Z0-9._/\-]+$
  rcat [rstr "touch", wsP, rplus (.cls pathC)]]

/-- Python `str.strip()`. -/
def stripWS (cs : List Char) : List Char :=
  ((cs.dropWhile pyIsSpace).reverse.dropWhile pyIsSpace).reverse

/-- Collapse each maximal whitespace run to a single `' '`
(`re.sub(r'\s+', ' ', ...)`); `prevWs` records whether the previous
character was part of a run. -/
def collapseAux : Bool → List Char → List Char
  | _, [] => []
  | prevWs, c :: cs =>
    if pyIsSpace c then
      if prevWs then collapseAux true cs else ' ' :: collapseAux true cs
    else c :: collapseAux false cs

/-- `re.sub(r'\s+', ' ', cmd.strip())`: the normalization in `cmd_allowed`. -/
def cmdClean (cs : List Char) : List Char := collapseAux false (stripWS cs)

/-- `tools.cmd_allowed`: the normalized command fully matches at least one
allow-list pattern. -/
def cmd_allowed (cmd : String) : Bool :=
  ALLOWED_CMD_PATTERNS.any fun r => r.fullmatch (cmdClean cmd.data)

/-- `pyStrip` on `String`s (`part.strip()`). -/
def pyStrip (s : String) : String := ⟨stripWS s.data⟩

/-- Auxiliary loop of `pySplitSep`: Python `str.split(sep)` for a nonempty
separator, scanning left to right.  `acc` is the current piece reversed;
`skip` counts separator characters still to be consumed after a match
(the recursion advances one character per step to stay structural). -/
def splitSepAux (sep : List Char) : Nat → List Char → List Char → List (List Char)
  | _, acc, [] => [acc.reverse]
  | skip + 1, acc, _ :: cs => splitSepAux sep skip acc cs
  | 0, acc, c :: cs =>
    if sep.isPrefixOf (c :: cs) then
      acc.reverse :: splitSepAux sep (sep.length - 1) [] cs
    else
      splitSepAux sep 0 (c :: acc) cs

/-- Python `cmd.split(sep)` for a nonempty separator string. -/
def pySplitSep (sep s : String) : List String :=
  (splitSepAux sep.data 0 [] s.data).map fun l => ⟨l⟩

/-! ### `tools.tool_run_safe` and `tools.tool_run_command`

The backend executor (`get_executor().execute`) is passed in as a function
`String → Int × String × String` (return code, stdout, stderr).  The Python
result dict is either `{"ok": False, "stderr": "command not allowed by
policy: <part>"}` (embedded as `denied part`) or
`{"ok": rc == 0, "rc": rc, "stdout": out, "stderr": err}` (embedded as
`executed rc out err`; `ok` is determined by `rc`). -/

/-- Outcome of `tool_run_safe`: a policy denial naming the offending
segment, or an execution envelope from the backend. -/
inductive RunOutcome where
  | denied (segment : String)
  | executed (rc : Int) (stdout stderr : String)
deriving DecidableEq

/-- The `for part in cmd_parts` loop of `tool_run_safe`: the first stripped
(`part = part.strip()`), nonempty segment rejected by `cmd_allowed`, if
any. -/
def firstDenied : List String → Option String
  | [] => none
  | p :: ps =>
    if pyStrip p != "" && !cmd_allowed (pyStrip p) then some (pyStrip p)
    else firstDenied ps

/-- The segment list of `tool_run_safe`: split on `"&&"`; if that produced
a single part, split on `";"` instead. -/
def runSafeParts (cmd : String) : List String :=
  let parts := pySplitSep "&&" cmd
  if parts.length = 1 then pySplitSep ";" cmd else parts

/-- `tools.tool_run_safe(cmd)`, with the backend executor abstracted. -/
def tool_run_safe (ex : String → Int × String × String) (cmd : String) :
    RunOutcome :=
  match firstDenied (runSafeParts cmd) with
  | some t => .denied t
  | none =>
    let r := ex cmd
    .executed r.1 r.2.1 r.2.2

/-- `tools.tool_run_command(cmd)`: delegates to `tool_run_safe`. -/
def tool_run_command (ex : String → Int × String × String) (cmd : String) :
    RunOutcome :=
  tool_run_safe ex cmd

/-- The claim's notion of segmentation, following the spec's words: a
command is split on the top-level sequencing separators `&&` and `;`
(both, wherever they occur). -/
def specTopLevelSegments (cmd : String) : List String :=
  (pySplitSep "&&" cmd).flatMap fun p => pySplitSep ";" p

/-! ### `tools.tool_set_config_kv`

`read_file` is abstracted as a function; the atomic write is recorded as
the `written` field (path and new content handed to `write_file_atomic`),
`none` when no write happens. -/

/-- Python `str.lower()` (ASCII folding). -/
def pyLower (s : String) : String := ⟨s.data.map Char.toLower⟩

/-- Result of `tool_set_config_kv`: the returned dict plus the recorded
file write (if any). -/
structure SetKVResult where
  ok : Bool
  stderr : Option String
  written : Option (String × String)
deriving DecidableEq

/-- `tools.tool_set_config_kv(path, key, value)`.  The two nested Python
`if`s (path gate, then key/value gate) are flattened into one conjunction;
a run that is not blocked reads the file, applies `set_config_line` and
writes the new content atomically. -/
def tool_set_config_kv (allowInsecure : Bool) (readF : String → String)
    (path key value : String) : SetKVResult :=
  if !allowInsecure && path == "/etc/ssh/sshd_config" &&
     (key == "PermitRootLogin" || key == "PasswordAuthentication") &&
     pyLower value == "yes" then
    { ok := false,
      stderr := some "blocked by policy: insecure sshd setting; rerun with --allow-insecure",
      written := none }
  else
    let current := readF path
    let new := (set_config_line current key value).1
    { ok := true, stderr := none, written := some (path, new) }

/-! ### `tools.dispatch_tool`

Argument dicts become association lists of `PVal` (a JSON string, a JSON
list of strings, or some other Python value).  The bodies of the individual
tools perform I/O, so they are abstracted as
`impl : String → Args → Except String ToolResult`; an `Except.error`
models a Python exception escaping the tool body (or the keyword-argument
binding), which `dispatch_tool` catches and converts.  Only the `ok` and
`stderr` components of the returned dicts are modelled. -/

/-- A Python value carried in a tool-call argument mapping. -/
inductive PVal where
  | str (s : String)
  | strs (l : List String)
  | raw
deriving DecidableEq

/-- An argument mapping (Python dict with string keys). -/
abbrev Args := List (String × PVal)

/-- `k in d` -/
def hasKey (a : Args) (k : String) : Bool := a.any fun kv => kv.1 == k

/-- `d[k]` (defaulting to `raw`; only used under a `hasKey` guard). -/
def getArg (a : Args) (k : String) : PVal :=
  ((a.find? fun kv => kv.1 == k).map Prod.snd).getD .raw

/-- Remove a key. -/
def eraseArg (a : Args) (k : String) : Args := a.filter fun kv => kv.1 != k

/-- `d[k] = v` -/
def insertArg (a : Args) (k : String) (v : PVal) : Args :=
  if hasKey a k then a.map (fun kv => if kv.1 == k then (k, v) else kv)
  else a ++ [(k, v)]

/-- `d[dst] = d.pop(src)` -/
def popInto (a : Args) (src dst : String) : Args :=
  insertArg (eraseArg a src) dst (getArg a src)

/-- `" ".join(l)` -/
def joinSpace (l : List String) : String := String.intercalate " " l

/-- The parameter-name normalization block at the top of `dispatch_tool`,
step for step. -/
def normalizeArgs (name : String) (args : Args) : Args :=
  let a := args
  let a := if hasKey a "service_name" && !hasKey a "name" then
             popInto a "service_name" "name" else a
  let a := if hasKey a "file_path" && !hasKey a "path" then
             popInto a "file_path" "path" else a
  let a :=
    if hasKey a "package_names" && !hasKey a "package" then
      let v := getArg a "package_names"
      insertArg (eraseArg a "package_names") "package"
        (match v with | .strs l => .str (joinSpace l) | v => v)
    else if hasKey a "packages" && !hasKey a "package" then
      let v := getArg a "packages"
      insertArg (eraseArg a "packages") "package"
        (match v with | .strs l => .str (joinSpace l) | v => v)
    else a
  let a := if hasKey a "command" && !hasKey a "cmd" then
             popInto a "command" "cmd" else a
  let a := if hasKey a "permissions" && !hasKey a "mode" then
             popInto a "permissions" "mode" else a
  let a := if hasKey a "regex_pattern" && !hasKey a "regex" then
             popInto a "regex_pattern" "regex" else a
  let a :=
    if name == "search_packages" && hasKey a "package_name" && !hasKey a "query" then
      popInto a "package_name" "query"
    else if hasKey a "package_name" && !hasKey a "package" then
      popInto a "package_name" "package"
    else a
  a

/-- The uniform result envelope (the modelled part of the returned dict). -/
structure ToolResult where
  ok : Bool
  stderr : Option String
deriving DecidableEq

/-- Invoke the abstract tool body, converting an escaping exception into
the structured failure produced by the dispatcher's `except` clause. -/
def runImpl (impl : String → Args → Except String ToolResult)
    (name : String) (a : Args) : ToolResult :=
  match impl name a with
  | .ok r => r
  | .error e => { ok := false, stderr := some ("tool execution error: " ++ e) }

/-- `tools.dispatch_tool(name, args)`: normalize, validate required
parameters with the code's per-tool checks and messages, dispatch; unknown
names fall through to the `unknown tool` failure. -/
def dispatch_tool (impl : String → Args → Except String ToolResult)
    (name : String) (args : Args) : ToolResult :=
  let n := normalizeArgs name args
  if name == "read_file" then
    if !hasKey n "path" then
      { ok := false, stderr := some "missing required parameter: path" }
    else runImpl impl name n
  else if name == "write_file" then
    if !hasKey n "path" || !hasKey n "content" then
      { ok := false, stderr := some "missing required parameters: path, content" }
    else runImpl impl name n
  else if name == "run_safe" then
    if !hasKey n "cmd" then
      { ok := false, stderr := some "missing required parameter: cmd" }
    else runImpl impl name n
  else if name == "restart_service" then
    if !hasKey n "name" then
      { ok := false, stderr := some "missing required parameter: name" }
    else runImpl impl name n
  else if name == "verify_regex" then
    if !hasKey n "path" || !hasKey n "regex" then
      { ok := false, stderr := some "missing required parameters: path, regex" }
    else runImpl impl name n
  else if name == "set_config_kv" then
    if !hasKey n "path" || !hasKey n "key" || !hasKey n "value" then
      { ok := false, stderr := some "missing required parameters: path, key, value" }
    else runImpl impl name n
  else if name == "install_package" then
    if !hasKey n "package" then
      { ok := false, stderr := some "missing required parameter: package" }
    else runImpl impl name n
  else if name == "remove_package" then
    if !hasKey n "package" then
      { ok := false, stderr := some "missing required parameter: package" }
    else runImpl impl name n
  else if name == "update_system" then
    runImpl impl name n
  else if name == "list_packages" then
    runImpl impl name n
  else if name == "search_packages" then
    if !hasKey n "query" then
      { ok := false, stderr := some "missing required parameter: query" }
    else runImpl impl name n
  else if name == "check_service_status" then
    if !hasKey n "name" then
      { ok := false, stderr := some "missing required parameter: name" }
    else runImpl impl name n
  else if name == "list_services" then
    runImpl impl name n
  else if name == "create_directory" then
    if !hasKey n "path" then
      { ok := false, stderr := some "missing required parameter: path" }
    else runImpl impl name n
  else if name == "change_permissions" then
    if !hasKey n "path" || !hasKey n "mode" then
      { ok := false, stderr := some "missing required parameters: path, mode" }
    else runImpl impl name n
  else if name == "change_ownership" then
    if !hasKey n "path" || !hasKey n "user" then
      { ok := false, stderr := some "missing required parameters: path, user" }
    else runImpl impl name n
  else
    { ok := false, stderr := some ("unknown tool " ++ name) }

/-- The operation names `dispatch_tool` recognises, in source order. -/
def knownToolNames : List String :=
  ["read_file", "write_file", "run_safe", "restart_service", "verify_regex",
   "set_config_kv", "install_package", "remove_package", "update_system",
   "list_packages", "search_packages", "check_service_status", "list_services",
   "create_directory", "change_permissions", "change_ownership"]

/-- The required (post-normalization) parameters each tool's validation
check demands. -/
def requiredParams (name : String) : List String :=
  if name == "read_file" then ["path"]
  else if name == "write_file" then ["path", "content"]
  else if name == "run_safe" then ["cmd"]
  else if name == "restart_service" then ["name"]
  else if name == "verify_regex" then ["path", "regex"]
  else if name == "set_config_kv" then ["path", "key", "value"]
  else if name == "install_package" then ["package"]
  else if name == "remove_package" then ["package"]
  else if name == "search_packages" then ["query"]
  else if name == "check_service_status" then ["name"]
  else if name == "create_directory" then ["path"]
  else if name == "change_permissions" then ["path", "mode"]
  else if name == "change_ownership" then ["path", "user"]
  else []

/-- The fixed missing-parameter message each tool's validation check
produces. -/
def missingMsg (name : String) : String :=
  if name == "read_file" then "missing required parameter: path"
  else if name == "write_file" then "missing required parameters: path, content"
  else if name == "run_safe" then "missing required parameter: cmd"
  else if name == "restart_service" then "missing required parameter: name"
  else if name == "verify_regex" then "missing required parameters: path, regex"
  else if name == "set_config_kv" then "missing required parameters: path, key, value"
  else if name == "install_package" then "missing required parameter: package"
  else if name == "remove_package" then "missing required parameter: package"
  else if name == "search_packages" then "missing required parameter: query"
  else if name == "check_service_status" then "missing required parameter: name"
  else if name == "create_directory" then "missing required parameter: path"
  else if name == "change_permissions" then "missing required parameters: path, mode"
  else if name == "change_ownership" then "missing required parameters: path, user"
  else ""

/-! ### `ssh_client.SSHConnectionPool`

For one endpoint (one pool key), the pool state is the idle list and the
active count.  An idle entry is `true` when `_is_connection_alive` will
report the session as alive at its next probe and `false` otherwise; the
head of the list is the most recently appended session (Python pops from
the end of `self._pools[pool_key]`).  Sessions are otherwise
interchangeable, so only liveness is modelled. -/

/-- How `get_connection` obtained (or failed to obtain) a session. -/
inductive AcqOutcome where
  | reused
  | created
  | exhausted
deriving DecidableEq

/-- `SSHConnectionPool.get_connection`, under the per-endpoint lock:
pop idle sessions, discarding dead ones, until a live one is found
(`reused`); on an empty idle list create a new session when
`active < max_connections_per_host` (`created`), else fail fast with the
pool-exhausted exception (`exhausted`).  Returns the new idle list, the
new active count and the outcome. -/
def get_connection (maxConn : Nat) : List Bool → Nat → List Bool × Nat × AcqOutcome
  | [], active =>
    if active < maxConn then ([], active + 1, .created)
    else ([], active, .exhausted)
  | alive :: rest, active =>
    if alive then (rest, active + 1, .reused)
    else get_connection maxConn rest active

/-- `SSHConnectionPool.return_connection`: append the session to the idle
list when still alive (else close and drop it), and decrement the active
count, clamped at zero (`max(0, active - 1)` is truncated `Nat`
subtraction). -/
def return_connection (alive : Bool) (idle : List Bool) (active : Nat) :
    List Bool × Nat :=
  (if alive then true :: idle else idle, active - 1)

/-- Pool state for one endpoint, plus the number of sessions currently
held by callers (`checkedOut` is usage bookkeeping, not a field of the
Python class: a well-formed caller only returns a session it holds). -/
structure PoolState where
  idle : List Bool
  active : Nat
  checkedOut : Nat
deriving DecidableEq

/-- One pool operation against the endpoint: an acquire, a release of a
held session (whose liveness at return time is arbitrary), or the
environment letting an idle session die before its next probe. -/
inductive PoolStep (maxConn : Nat) : PoolState → PoolState → Prop
  | acquire (s : PoolState) :
      PoolStep maxConn s
        { idle := (get_connection maxConn s.idle s.active).1,
          active := (get_connection maxConn s.idle s.active).2.1,
          checkedOut := s.checkedOut +
            (if (get_connection maxConn s.idle s.active).2.2 = .exhausted
             then 0 else 1) }
  | release (alive : Bool) (s : PoolState) (h : 0 < s.checkedOut) :
      PoolStep maxConn s
        { idle := (return_connection alive s.idle s.active).1,
          active := (return_connection alive s.idle s.active).2,
          checkedOut := s.checkedOut - 1 }
  | decay (s : PoolState) (pre suf : List Bool) (h : s.idle = pre ++ true :: suf) :
      PoolStep maxConn s { s with idle := pre ++ false :: suf }

/-- States reachable from the empty pool by pool operations. -/
inductive PoolReachable (maxConn : Nat) : PoolState → Prop
  | init : PoolReachable maxConn ⟨[], 0, 0⟩
  | step {s s' : PoolState} :
      PoolReachable maxConn s → PoolStep maxConn s s' → PoolReachable maxConn s'

/-! ### `multi_agent.multi_agent_system`

The three agents are external decision-maker calls, abstracted as
functions over opaque plan/execution/verification types `P`, `E`, `V`
(the goal string is threaded to the planner and verifier exactly as in the
source; `vsucc` extracts `verification.get('success', False)`).  Setting
`config.ALLOW_INSECURE` and the container bootstrap `ensure_up()` happen
before the loop and are outside the model. -/

/-- One attempt record `{attempt_number, plan, execution, verification}`. -/
structure MAAttempt (P E V : Type) where
  num : Nat
  plan : P
  execution : E
  verification : V
deriving DecidableEq

/-- The dict returned by `multi_agent_system`. -/
structure MAResult (P E V : Type) where
  goal : String
  success : Bool
  attempts : List (MAAttempt P E V)
  finalAttempt : Nat
  plan : P
  execution : E
  verification : V
deriving DecidableEq

/-- The `for attempt_num in range(1, max_retries + 1)` loop of
`multi_agent_system`: `fuel` counts the remaining iterations, `n` the
current attempt number, `prev` the `previous_attempt` variable, `acc` the
accumulated attempt list.  When the range is exhausted the function builds
the failure dict from `attempts[-1]`; `none` models the `IndexError` that
Python raises there when no attempt ever ran (`max_retries < 1`). -/
def masLoop {P E V : Type} (planner : String → Option (MAAttempt P E V) → P)
    (executor : P → E) (verifier : String → E → V) (vsucc : V → Bool)
    (goal : String) (maxRetries : Nat) :
    Nat → Nat → Option (MAAttempt P E V) → List (MAAttempt P E V) →
    Option (MAResult P E V)
  | 0, _, _, acc =>
    match acc.getLast? with
    | none => none
    | some a => some ⟨goal, false, acc, maxRetries, a.plan, a.execution, a.verification⟩
  | fuel + 1, n, prev, acc =>
    let p := planner goal prev
    let e := executor p
    let v := verifier goal e
    let att : MAAttempt P E V := ⟨n, p, e, v⟩
    let acc' := acc ++ [att]
    if vsucc v then some ⟨goal, true, acc', n, p, e, v⟩
    else
      masLoop planner executor verifier vsucc goal maxRetries fuel (n + 1)
        (if n < maxRetries then some att else prev) acc'

/-- `multi_agent.multi_agent_system(goal, allow_insecure, max_retries)`. -/
def multi_agent_system {P E V : Type}
    (planner : String → Option (MAAttempt P E V) → P) (executor : P → E)
    (verifier : String → E → V) (vsucc : V → Bool) (goal : String)
    (maxRetries : Nat) : Option (MAResult P E V) :=
  masLoop planner executor verifier vsucc goal maxRetries maxRetries 1 none []

/-- A deterministic decision-maker stub over `P = E = V = Nat`: the plan
for the first attempt is `1`, and on a retry it is the previous attempt
number plus one, so the verification value of attempt `i` is `i` itself. -/
def plannerCount (_goal : String) (prev : Option (MAAttempt Nat Nat Nat)) : Nat :=
  match prev with
  | none => 1
  | some a => a.num + 1

/-- The attempt records the counting stub produces for attempts `a..b`. -/
def countAttempts (a b : Nat) : List (MAAttempt Nat Nat Nat) :=
  (List.range' a (b + 1 - a)).map fun i => ⟨i, i, i, i⟩

/-- A backend executor stub that always succeeds with empty output. -/
def exZero : String → Int × String × String := fun _ => (0, "", "")

/-- A tool-body stub that always returns a successful envelope. -/
def implOkStub : String → Args → Except String ToolResult :=
  fun _ _ => .ok { ok := true, stderr := none }

/-- A tool-body stub that always raises. -/
def implErrStub : String → Args → Except String ToolResult :=
  fun _ _ => .error "boom"

/-- The pool invariant, strengthened with the bookkeeping fact that the
active counter equals the number of checked-out sessions. -/
def PoolInv (maxConn : Nat) (s : PoolState) : Prop :=
  s.active = s.checkedOut ∧ s.idle.length + s.active ≤ maxConn

/-- The claim's phrase "ends with exactly one trailing newline": the last
character is a newline and the one before it (if any) is not. -/
def endsWithExactlyOneNL (l : List Char) : Bool :=
  match l.reverse with
  | ['\n'] => true
  | '\n' :: c :: _ => !(c == '\n')
  | _ => false

/-- The last character of `w`, falling back to the preceding character `p`
when `w` is empty: how a literal or whitespace run updates the "previous
character" threaded for the word-boundary test. -/
def lastOr (w : List Char) (p : Option Char) : Option Char :=
  match w.getLast? with
  | some c => some c
  | none => p

/-- The claim's reading of `verify_line`: some line of the document
consists of optional leading whitespace, the key, whitespace, and the
value (uncommented — nothing but whitespace precedes the key). -/
def C9ClaimPred (content key value : String) : Prop :=
  ∃ l ∈ pySplitlines content.data, ∃ w1 w2 rest : List Char,
    l = w1 ++ key.data ++ w2 ++ value.data ++ rest ∧
    (∀ c ∈ w1, pyIsSpace c = true) ∧
    w2 ≠ [] ∧ (∀ c ∈ w2, pyIsSpace c = true)

/-- What `verify_config_line` actually decides: starting at the beginning
of the text or just after some `'\n'`, optional whitespace (which may span
line breaks), the key, at least one whitespace character, and the value
occur, followed by a word boundary (end of text or a change of word-ness
against the last matched character). -/
def VerifySpec (content key value : String) : Prop :=
  ∃ pre w1 w2 rest : List Char,
    content.data = pre ++ w1 ++ key.data ++ w2 ++ value.data ++ rest ∧
    (pre = [] ∨ pre.getLast? = some '\n') ∧
    (∀ c ∈ w1, pyIsSpace c = true) ∧
    w2 ≠ [] ∧ (∀ c ∈ w2, pyIsSpace c = true) ∧
    wordBoundaryAfter ((w1 ++ key.data ++ w2 ++ value.data).getLast?) rest = true

/-! ## Theorems -/

theorem firstDenied_none (l : List String) :
    firstDenied l = none ↔
      ∀ p ∈ l, pyStrip p = "" ∨ cmd_allowed (pyStrip p) = true := by
  induction l with
  | nil => simp [firstDenied]
  | cons p ps ih =>
    by_cases h : pyStrip p = "" ∨ cmd_allowed (pyStrip p) = true
    · have hcond : (pyStrip p != "" && !cmd_allowed (pyStrip p)) = false := by
        rcases h with h | h <;> simp [h]
      simp only [firstDenied, hcond, Bool.false_eq_true, if_false, ih]
      constructor
      · intro hall q hq
        rcases List.mem_cons.1 hq with rfl | hq
        · exact h
        · exact hall q hq
      · intro hall q hq
        exact hall q (List.mem_cons_of_mem _ hq)
    · push_neg at h
      obtain ⟨h1, h2⟩ := h
      have h2' : cmd_allowed (pyStrip p) = false := by
        cases hc : cmd_allowed (pyStrip p) with
        | true => exact absurd hc h2
        | false => rfl
      have hcond : (pyStrip p != "" && !cmd_allowed (pyStrip p)) = true := by
        simp [h1, h2']
      simp only [firstDenied, hcond, if_true]
      constructor
      · intro hfalse
        exact absurd hfalse (by simp)
      · intro hall
        rcases hall p (List.mem_cons_self p ps) with hc | hc
        · exact absurd hc h1
        · exact absurd hc (by simp [h2'])

theorem firstDenied_some (l : List String) (s : String)
    (h : firstDenied l = some s) :
    (∃ p ∈ l, pyStrip p = s) ∧ s ≠ "" ∧ cmd_allowed s = false := by
  induction l with
  | nil => simp [firstDenied] at h
  | cons p ps ih =>
    rw [firstDenied] at h
    split at h
    case isTrue hcond =>
      injection h with h'
      subst h'
      obtain ⟨h1, h2⟩ := Bool.and_eq_true_iff.1 hcond
      refine ⟨⟨p, List.mem_cons_self p ps, rfl⟩, ?_, ?_⟩
      · intro he
        rw [he] at h1
        simp at h1
      · cases hc : cmd_allowed (pyStrip p) with
        | false => rfl
        | true => rw [hc] at h2; simp at h2
    case isFalse hcond =>
      obtain ⟨⟨q, hq, hqs⟩, hs1, hs2⟩ := ih h
      exact ⟨⟨q, List.mem_cons_of_mem _ hq, hqs⟩, hs1, hs2⟩

/-- C1 (amended): `tool_run_safe` splits the command on `&&` (or, when no
`&&` occurs, on `;`); the backend executor is invoked iff every stripped,
nonempty segment passes `cmd_allowed`; otherwise the result is the
structured policy failure naming the first offending stripped segment, and
it is independent of the backend executor.  (The claim's reading — a
segment list obtained by splitting on both separators at once — fails; see
the counterexample.) -/
theorem run_safe_allowlist_gate (ex : String → Int × String × String)
    (cmd : String) :
    ((∃ rc out err, tool_run_safe ex cmd = .executed rc out err) ↔
        ∀ p ∈ runSafeParts cmd, pyStrip p = "" ∨ cmd_allowed (pyStrip p) = true)
    ∧ (∀ s, tool_run_safe ex cmd = .denied s →
        (∃ p ∈ runSafeParts cmd, pyStrip p = s) ∧ s ≠ "" ∧
          cmd_allowed s = false ∧
          ∀ ex' : String → Int × String × String,
            tool_run_safe ex' cmd = .denied s) := by
  constructor
  · constructor
    · rintro ⟨rc, out, err, h⟩
      cases hf : firstDenied (runSafeParts cmd) with
      | some t => rw [tool_run_safe, hf] at h; exact absurd h (by simp)
      | none => exact (firstDenied_none _).1 hf
    · intro hall
      have hf : firstDenied (runSafeParts cmd) = none :=
        (firstDenied_none _).2 hall
      exact ⟨_, _, _, by rw [tool_run_safe, hf]⟩
  · intro s hs
    cases hf : firstDenied (runSafeParts cmd) with
    | none => rw [tool_run_safe, hf] at hs; exact absurd hs (by simp)
    | some t =>
      rw [tool_run_safe, hf] at hs
      have hts : t = s := by injection hs
      subst hts
      obtain ⟨hmem, hne, hna⟩ := firstDenied_some _ _ hf
      exact ⟨hmem, hne, hna, fun ex' => by rw [tool_run_safe, hf]⟩

/-- C1 witness: a compound command whose segments are all allow-listed is
executed, and a command with a disallowed segment is denied naming it. -/
theorem run_safe_allowlist_gate_witness :
    (∃ rc out err,
      tool_run_safe exZero "systemctl restart ssh && pwd" =
        RunOutcome.executed rc out err)
    ∧ ((∃ p ∈ runSafeParts "cat /etc/passwd; rm -rf /", pyStrip p = "rm -rf /")
        ∧ "rm -rf /" ≠ "" ∧ cmd_allowed "rm -rf /" = false
        ∧ ∀ ex' : String → Int × String × String,
            tool_run_safe ex' "cat /etc/passwd; rm -rf /" =
              RunOutcome.denied "rm -rf /") :=
  ⟨(run_safe_allowlist_gate exZero "systemctl restart ssh && pwd").1.mpr
      (by decide),
   (run_safe_allowlist_gate exZero "cat /etc/passwd; rm -rf /").2 "rm -rf /"
      (by decide)⟩

/-- C1 counterexample: on `"nohup a ; rm -rf / && pwd"` the top-level
`;`-segment `"rm -rf /"` matches no allow-list pattern, yet
`tool_run_safe` hands the full command to the backend executor (the code
splits on `;` only when no `&&` occurs, so the `nohup` pattern swallows
the embedded `; rm -rf /`). -/
theorem run_safe_mixed_separator_counterexample :
    (∃ p ∈ specTopLevelSegments "nohup a ; rm -rf / && pwd",
        pyStrip p = "rm -rf /")
    ∧ cmd_allowed "rm -rf /" = false
    ∧ tool_run_safe exZero "nohup a ; rm -rf / && pwd" =
        RunOutcome.executed 0 "" "" := by
  refine ⟨⟨" rm -rf / ", ?_, ?_⟩, ?_, ?_⟩
  · decide
  · decide
  · decide
  · decide

/-- C10: `tool_run_command` delegates to `tool_run_safe`; the two
operations are extensionally equal, so the flexible command runner
enforces the identical allow-list policy. -/
theorem run_command_refines_run_safe (ex : String → Int × String × String)
    (cmd : String) :
    tool_run_command ex cmd = tool_run_safe ex cmd := rfl

/-- C4: with the insecure-mode flag unset, `tool_set_config_kv` on
`/etc/ssh/sshd_config` with key `PermitRootLogin` or
`PasswordAuthentication` and value `"yes"` returns the structured
rejection, writes nothing, and its result does not depend on the file
reader (no read is performed); the identical call with the flag set
proceeds, returns ok and writes the updated content. -/
theorem set_config_kv_insecure_gate (readF readF' : String → String)
    (key : String)
    (hkey : key = "PermitRootLogin" ∨ key = "PasswordAuthentication") :
    tool_set_config_kv false readF "/etc/ssh/sshd_config" key "yes" =
      { ok := false,
        stderr := some "blocked by policy: insecure sshd setting; rerun with --allow-insecure",
        written := none }
    ∧ tool_set_config_kv false readF "/etc/ssh/sshd_config" key "yes" =
        tool_set_config_kv false readF' "/etc/ssh/sshd_config" key "yes"
    ∧ (tool_set_config_kv true readF "/etc/ssh/sshd_config" key "yes").ok = true
    ∧ (tool_set_config_kv true readF "/etc/ssh/sshd_config" key "yes").written =
        some ("/etc/ssh/sshd_config",
          (set_config_line (readF "/etc/ssh/sshd_config") key "yes").1) := by
  rcases hkey with rfl | rfl <;> exact ⟨rfl, rfl, rfl, rfl⟩

/-- C4 witness at `key = "PermitRootLogin"` with an empty-file reader. -/
theorem set_config_kv_insecure_gate_witness :
    (tool_set_config_kv false (fun _ => "") "/etc/ssh/sshd_config"
        "PermitRootLogin" "yes").ok = false
    ∧ (tool_set_config_kv true (fun _ => "") "/etc/ssh/sshd_config"
        "PermitRootLogin" "yes").ok = true := by
  have h := set_config_kv_insecure_gate (fun _ => "") (fun _ => "")
    "PermitRootLogin" (Or.inl rfl)
  exact ⟨by rw [h.1], h.2.2.1⟩

theorem get_connection_le (maxConn : Nat) (idle : List Bool) (active : Nat)
    (h : idle.length + active ≤ maxConn) :
    (get_connection maxConn idle active).1.length +
      (get_connection maxConn idle active).2.1 ≤ maxConn := by
  induction idle generalizing active with
  | nil =>
    by_cases hlt : active < maxConn
    · simp [get_connection, hlt]
      omega
    · simp [get_connection, hlt]
      simpa using h
  | cons alive rest ih =>
    cases alive with
    | true =>
      simp only [get_connection, if_true]
      simp only [List.length_cons] at h
      omega
    | false =>
      simp only [get_connection, Bool.false_eq_true, if_false]
      exact ih active (by simp at h; omega)

theorem get_connection_count (maxConn : Nat) (idle : List Bool) (active : Nat) :
    (get_connection maxConn idle active).2.1 = active +
      (if (get_connection maxConn idle active).2.2 = .exhausted then 0 else 1) := by
  induction idle generalizing active with
  | nil =>
    by_cases hlt : active < maxConn <;> simp [get_connection, hlt]
  | cons alive rest ih =>
    cases alive with
    | true => simp [get_connection]
    | false => simpa [get_connection] using ih active

theorem poolInv_step {maxConn : Nat} {s s' : PoolState}
    (h : PoolInv maxConn s) (hs : PoolStep maxConn s s') :
    PoolInv maxConn s' := by
  obtain ⟨h1, h2⟩ := h
  cases hs with
  | acquire s =>
    refine ⟨?_, get_connection_le _ _ _ h2⟩
    rw [get_connection_count maxConn s.idle s.active, h1, Nat.add_comm]
  | release alive s hco =>
    have hact : 1 ≤ s.active := h1 ▸ hco
    cases alive with
    | true =>
      refine ⟨?_, ?_⟩ <;> simp [return_connection] <;> omega
    | false =>
      refine ⟨?_, ?_⟩ <;> simp [return_connection] <;> omega
  | decay s pre suf hidle =>
    refine ⟨h1, ?_⟩
    have : (pre ++ false :: suf).length = s.idle.length := by
      rw [hidle]; simp
    simpa [this] using h2

/-- C6: in every state reachable from the empty pool by acquires, releases
of held sessions, and sessions dying while idle, the number of idle
sessions plus the active count never exceeds `max_connections_per_host`. -/
theorem pool_invariant_reachable (maxConn : Nat) (s : PoolState)
    (h : PoolReachable maxConn s) :
    s.idle.length + s.active ≤ maxConn := by
  suffices hinv : PoolInv maxConn s from hinv.2
  induction h with
  | init => exact ⟨rfl, by simp⟩
  | step _ hs ih => exact poolInv_step ih hs

/-- C6 witness: the invariant for `maxConn = 2` at a concrete reachable
state (empty pool, one acquire performed). -/
theorem pool_invariant_reachable_witness :
    ({ idle := (get_connection 2 ([] : List Bool) 0).1,
       active := (get_connection 2 ([] : List Bool) 0).2.1,
       checkedOut := 0 +
         (if (get_connection 2 ([] : List Bool) 0).2.2 = .exhausted
          then 0 else 1) } : PoolState).idle.length +
      ({ idle := (get_connection 2 ([] : List Bool) 0).1,
         active := (get_connection 2 ([] : List Bool) 0).2.1,
         checkedOut := 0 +
           (if (get_connection 2 ([] : List Bool) 0).2.2 = .exhausted
            then 0 else 1) } : PoolState).active ≤ 2 :=
  pool_invariant_reachable 2 _
    (PoolReachable.step PoolReachable.init (PoolStep.acquire ⟨[], 0, 0⟩))

/-- C7: when no idle session is live and the active count equals
`max_connections_per_host`, `get_connection` fails immediately with the
pool-exhausted outcome (it is a total function — there is no blocking
wait), leaving the active count unchanged; with a capacity of 2, three
successive acquires from the empty pool yield two creations and one
exhaustion. -/
theorem pool_exhausted_fail_fast :
    (∀ (maxConn : Nat) (idle : List Bool) (active : Nat),
        (∀ b ∈ idle, b = false) → active = maxConn →
        get_connection maxConn idle active = ([], active, .exhausted))
    ∧ get_connection 2 [] 0 = ([], 1, .created)
    ∧ get_connection 2 [] 1 = ([], 2, .created)
    ∧ get_connection 2 [] 2 = ([], 2, .exhausted) := by
  refine ⟨?_, rfl, rfl, rfl⟩
  intro maxConn idle active hdead hact
  subst hact
  induction idle with
  | nil => simp [get_connection]
  | cons b rest ih =>
    have hb : b = false := hdead b (List.mem_cons_self b rest)
    subst hb
    simp only [get_connection, Bool.false_eq_true, if_false]
    exact ih fun b hb => hdead b (List.mem_cons_of_mem _ hb)

/-- C7 witness: a dead idle session and a full active count at capacity 2. -/
theorem pool_exhausted_fail_fast_witness :
    get_connection 2 [false] 2 = ([], 2, .exhausted) :=
  pool_exhausted_fail_fast.1 2 [false] 2 (by decide) rfl

theorem countAttempts_self (k : Nat) : countAttempts k k = [⟨k, k, k, k⟩] := by
  simp [countAttempts]

theorem countAttempts_nil (n k : Nat) (h : k < n) : countAttempts n k = [] := by
  unfold countAttempts
  have h0 : k + 1 - n = 0 := by omega
  rw [h0]
  simp

theorem countAttempts_cons (n k : Nat) (h : n ≤ k) :
    countAttempts n k = ⟨n, n, n, n⟩ :: countAttempts (n + 1) k := by
  unfold countAttempts
  have h1 : k + 1 - n = (k - n) + 1 := by omega
  have h2 : k + 1 - (n + 1) = k - n := by omega
  rw [h1, h2, List.range'_succ]
  simp

theorem countAttempts_length (a b : Nat) :
    (countAttempts a b).length = b + 1 - a := by
  simp [countAttempts]

theorem countAttempts_getLast (n k : Nat) (h : n ≤ k) :
    (countAttempts n k).getLast? = some ⟨k, k, k, k⟩ := by
  unfold countAttempts
  have h1 : k + 1 - n = (k - n) + 1 := by omega
  rw [h1, List.range'_concat]
  have h2 : n + 1 * (k - n) = k := by omega
  rw [List.map_append, h2]
  simp

theorem masLoop_count_success (g : String) (k maxR : Nat) (hk : k ≤ maxR) :
    ∀ (fuel n : Nat) (prev : Option (MAAttempt Nat Nat Nat))
      (acc : List (MAAttempt Nat Nat Nat)),
      plannerCount g prev = n → n ≤ k → k + 1 ≤ n + fuel →
      masLoop plannerCount id (fun _ e => e) (fun v => v == k) g maxR fuel n
          prev acc =
        some ⟨g, true, acc ++ countAttempts n k, k, k, k, k⟩ := by
  intro fuel
  induction fuel with
  | zero => intro n prev acc _ hnk hfuel; omega
  | succ fuel ih =>
    intro n prev acc hp hnk hfuel
    rw [masLoop]
    simp only [hp, id]
    by_cases hnk' : n = k
    · subst hnk'
      simp only [beq_self_eq_true, if_true]
      rw [countAttempts_self]
    · have hlt : n < k := lt_of_le_of_ne hnk hnk'
      have hne : (n == k) = false := by simp [hnk']
      simp only [hne, Bool.false_eq_true, if_false]
      have hnmax : n < maxR := lt_of_lt_of_le hlt hk
      rw [if_pos hnmax]
      have hrec := ih (n + 1) (some ⟨n, n, n, n⟩)
        (acc ++ [({ num := n, plan := n, execution := n, verification := n } :
          MAAttempt Nat Nat Nat)]) rfl hlt (by omega)
      rw [hrec, countAttempts_cons n k hnk, List.append_assoc]
      rfl

theorem masLoop_count_fail (g : String) (maxR : Nat) :
    ∀ (fuel n : Nat) (prev : Option (MAAttempt Nat Nat Nat))
      (acc : List (MAAttempt Nat Nat Nat)),
      (0 < fuel → plannerCount g prev = n) → n + fuel = maxR + 1 →
      masLoop plannerCount id (fun _ e => e) (fun v => v == maxR + 1) g maxR
          fuel n prev acc =
        (match (acc ++ countAttempts n maxR).getLast? with
         | none => none
         | some a =>
           some ⟨g, false, acc ++ countAttempts n maxR, maxR, a.plan,
                 a.execution, a.verification⟩) := by
  intro fuel
  induction fuel with
  | zero =>
    intro n prev acc _ hfuel
    have hn : maxR < n := by omega
    rw [masLoop, countAttempts_nil n maxR hn, List.append_nil]
    cases acc.getLast? <;> rfl
  | succ fuel ih =>
    intro n prev acc hp hfuel
    have hp' := hp (Nat.succ_pos fuel)
    rw [masLoop]
    simp only [hp', id]
    have hnmax : n ≤ maxR := by omega
    have hne : (n == maxR + 1) = false := by
      simp
      omega
    simp only [hne, Bool.false_eq_true, if_false]
    have hprev : 0 < fuel →
        plannerCount g (if n < maxR then
          some ({ num := n, plan := n, execution := n, verification := n } :
            MAAttempt Nat Nat Nat) else prev) = n + 1 := by
      intro hfuelpos
      have hlt : n < maxR := by omega
      rw [if_pos hlt]
      rfl
    have hrec := ih (n + 1)
      (if n < maxR then
        some ({ num := n, plan := n, execution := n, verification := n } :
          MAAttempt Nat Nat Nat) else prev)
      (acc ++ [({ num := n, plan := n, execution := n, verification := n } :
        MAAttempt Nat Nat Nat)]) hprev (by omega)
    rw [hrec, countAttempts_cons n maxR hnmax, List.append_assoc]
    rfl

/-- C5: for `1 ≤ k ≤ max_retries` and the counting decision-maker stub
whose verification fails on attempts `1..k-1` and succeeds on attempt `k`,
`multi_agent_system` returns success with exactly `k` attempts recorded
and `final_attempt = k`; with a stub failing on every attempt it returns
overall failure after `max_retries` attempts, retaining the last attempt's
plan, execution and verification. -/
theorem multi_agent_retry_convergence (g : String) (k maxR : Nat)
    (h1 : 1 ≤ k) (h2 : k ≤ maxR) :
    (multi_agent_system plannerCount id (fun _ e => e) (fun v => v == k) g
        maxR = some ⟨g, true, countAttempts 1 k, k, k, k, k⟩
      ∧ (countAttempts 1 k).length = k)
    ∧ (multi_agent_system plannerCount id (fun _ e => e)
          (fun v => v == maxR + 1) g maxR =
        some ⟨g, false, countAttempts 1 maxR, maxR, maxR, maxR, maxR⟩
      ∧ (countAttempts 1 maxR).length = maxR) := by
  refine ⟨⟨?_, ?_⟩, ⟨?_, ?_⟩⟩
  · have h := masLoop_count_success g k maxR h2 maxR 1 none [] rfl h1 (by omega)
    rw [multi_agent_system, h, List.nil_append]
  · rw [countAttempts_length]
    omega
  · have h := masLoop_count_fail g maxR maxR 1 none [] (fun _ => rfl) (by omega)
    rw [multi_agent_system, h, List.nil_append,
      countAttempts_getLast 1 maxR (le_trans h1 h2)]
  · rw [countAttempts_length]
    omega

/-- C5 witness: success on attempt 2 of 3, and exhaustion after 3 failing
attempts. -/
theorem multi_agent_retry_convergence_witness :
    multi_agent_system plannerCount id (fun _ e => e) (fun v => v == 2)
        "goal" 3 = some ⟨"goal", true, countAttempts 1 2, 2, 2, 2, 2⟩
    ∧ multi_agent_system plannerCount id (fun _ e => e) (fun v => v == 4)
        "goal" 3 = some ⟨"goal", false, countAttempts 1 3, 3, 3, 3, 3⟩ :=
  ⟨(multi_agent_retry_convergence "goal" 2 3 (by omega) (by omega)).1.1,
   (multi_agent_retry_convergence "goal" 2 3 (by omega) (by omega)).2.1⟩

/-- C8: `dispatch_tool` is a total function into result envelopes (it never
raises): an unknown operation name yields `ok = false` with the
`unknown tool` message; a missing required parameter (after synonym
normalization) yields `ok = false` with a message naming it (the message
lists the tool's required parameters, among them the missing one); and a
fault escaping the invoked operation is caught and converted to an
`ok = false` result. -/
theorem dispatch_tool_structured
    (impl : String → Args → Except String ToolResult) (name : String)
    (args : Args) :
    (name ∉ knownToolNames →
      dispatch_tool impl name args =
        { ok := false, stderr := some ("unknown tool " ++ name) })
    ∧ (∀ req ∈ requiredParams name,
        hasKey (normalizeArgs name args) req = false →
          dispatch_tool impl name args =
            { ok := false, stderr := some (missingMsg name) } ∧
          req.data <:+: (missingMsg name).data)
    ∧ ((∀ req ∈ requiredParams name,
          hasKey (normalizeArgs name args) req = true) →
        ∀ e, impl name (normalizeArgs name args) = .error e →
          name ∈ knownToolNames →
          dispatch_tool impl name args =
            { ok := false, stderr := some ("tool execution error: " ++ e) }) := by
  by_cases hmem : name ∈ knownToolNames
  · simp only [knownToolNames, List.mem_cons, List.not_mem_nil, or_false]
      at hmem
    rcases hmem with rfl | rfl | rfl | rfl | rfl | rfl | rfl | rfl | rfl |
      rfl | rfl | rfl | rfl | rfl | rfl | rfl
    all_goals refine ⟨fun hn => absurd (by decide) hn, ?_, ?_⟩
    all_goals first
      | (intro req hreq
         fin_cases hreq <;>
           exact fun hkey =>
             ⟨by simp [dispatch_tool, hkey, missingMsg], by decide⟩)
      | (intro hall e himpl _
         simp [dispatch_tool, runImpl, himpl, requiredParams, hall])
  · have hne := hmem
    simp only [knownToolNames, List.mem_cons, List.not_mem_nil, or_false,
      not_or] at hne
    obtain ⟨h1, h2, h3, h4, h5, h6, h7, h8, h9, h10, h11, h12, h13, h14,
      h15, h16⟩ := hne
    refine ⟨fun _ => ?_, ?_, ?_⟩
    · simp [dispatch_tool, h1, h2, h3, h4, h5, h6, h7, h8, h9, h10, h11,
        h12, h13, h14, h15, h16]
    · intro req hreq
      simp [requiredParams, h1, h2, h3, h4, h5, h6, h7, h8, h9, h10, h11,
        h12, h13, h14, h15, h16] at hreq
    · intro _ _ _ hmem2
      exact absurd hmem2 hmem

/-- C8 witness: an unknown name, a missing required parameter, and a
raising operation, each converted to a structured failure. -/
theorem dispatch_tool_structured_witness :
    dispatch_tool implOkStub "frobnicate" [] =
      { ok := false, stderr := some ("unknown tool " ++ "frobnicate") }
    ∧ (dispatch_tool implOkStub "write_file" [("path", PVal.str "/x")] =
        { ok := false, stderr := some (missingMsg "write_file") } ∧
        "content".data <:+: (missingMsg "write_file").data)
    ∧ dispatch_tool implErrStub "update_system" [] =
        { ok := false, stderr := some ("tool execution error: " ++ "boom") } :=
  ⟨(dispatch_tool_structured implOkStub "frobnicate" []).1 (by decide),
   (dispatch_tool_structured implOkStub "write_file"
      [("path", PVal.str "/x")]).2.1 "content" (by decide) (by decide),
   (dispatch_tool_structured implErrStub "update_system" []).2.2
      (by decide) "boom" rfl (by decide)⟩

theorem sclLoop_length (key canon : List Char) (l : List (List Char)) :
    (sclLoop key canon l).1.length = l.length := by
  induction l with
  | nil => rfl
  | cons x xs ih =>
    rw [sclLoop]
    by_cases h : setPatMatch key x = true <;> simp [h, ih]

theorem sclLoop_found_ne_nil (key canon : List Char) (l : List (List Char))
    (h : (sclLoop key canon l).2 = true) : (sclLoop key canon l).1 ≠ [] := by
  intro hnil
  have hlen := sclLoop_length key canon l
  rw [hnil] at hlen
  have hl : l = [] := List.length_eq_zero.1 hlen.symm
  subst hl
  simp [sclLoop] at h

theorem joinNL_ends_nl (out : List (List Char)) (h : out ≠ [])
    (hlast : endsWithNLChar (out.getLast?.getD []) = true) :
    endsWithNLChar (joinNL out) = true := by
  induction out with
  | nil => exact absurd rfl h
  | cons l ls ih =>
    cases ls with
    | nil => simpa [joinNL, endsWithNLChar] using hlast
    | cons l' rest =>
      have hlast' : endsWithNLChar ((l' :: rest).getLast?.getD []) = true := by
        rwa [List.getLast?_cons_cons] at hlast
      have ihx := ih (by simp) hlast'
      show endsWithNLChar (l ++ '\n' :: joinNL (l' :: rest)) = true
      unfold endsWithNLChar at ihx ⊢
      rw [List.getLast?_append_cons]
      cases hj : joinNL (l' :: rest) with
      | nil => rw [hj] at ihx; simp at ihx
      | cons a as =>
        rw [hj] at ihx
        rw [show ('\n' :: a :: as) = ['\n'] ++ a :: as from rfl,
          List.getLast?_append_cons]
        exact ihx

theorem sclOut_ne_nil (current key value : List Char) :
    sclOut current key value ≠ [] := by
  rw [sclOut]
  by_cases h2 : (sclLoop key (key ++ ' ' :: value) (pySplitlines current)).2 = true
  · simpa [h2] using sclLoop_found_ne_nil key _ (pySplitlines current) h2
  · simp [h2]

theorem sclNew_ends_nl (current key value : List Char) :
    endsWithNLChar (sclNew current key value) = true := by
  rw [sclNew]
  set out := sclOut current key value with hout
  have hne : out ≠ [] := hout ▸ sclOut_ne_nil current key value
  by_cases hcond : (!out.isEmpty && endsWithNLChar (out.getLast?.getD [])) = true
  · obtain ⟨_, h2⟩ := Bool.and_eq_true_iff.1 hcond
    have hjoin := joinNL_ends_nl out hne h2
    simpa [hcond] using hjoin
  · have hcond' : (!(!out.isEmpty && endsWithNLChar (out.getLast?.getD []))) = true := by
      simp only [Bool.not_eq_true] at hcond
      simp [hcond]
    rw [if_pos hcond']
    unfold endsWithNLChar
    rw [show (joinNL out ++ ['\n']) = joinNL out ++ '\n' :: [] from rfl,
      List.getLast?_append_cons]
    rfl

theorem setConfigLineL_ends_nl (current key value : List Char) :
    endsWithNLChar (setConfigLineL current key value).1 = true :=
  sclNew_ends_nl current key value

theorem setConfigLineL_changed_iff (current key value : List Char) :
    (setConfigLineL current key value).2 = true ↔
      (setConfigLineL current key value).1 ≠ pyNormalizeTrailing current := by
  simp [setConfigLineL, bne_iff_ne]

/-- C3 (amended): the new content returned by `set_config_line` always ends
with a trailing newline — at least one, but not always exactly one (see the
counterexample) — and the returned `changed` flag is true iff the new
content differs from the old content after trailing-newline normalization
(append one `'\n'` to a nonempty document not already ending in one). -/
theorem set_config_line_trailing_and_changed (current key value : String) :
    endsWithNLChar (set_config_line current key value).1.data = true
    ∧ ((set_config_line current key value).2 = true ↔
        (set_config_line current key value).1.data ≠
          pyNormalizeTrailing current.data) :=
  ⟨setConfigLineL_ends_nl current.data key.data value.data,
   setConfigLineL_changed_iff current.data key.data value.data⟩

/-- C3 counterexample: on the document `"Foo x\n\n"`, replacing `Foo`
yields `"Foo bar\n\n"` — the result ends with two newlines, not exactly
one (the trailing empty line is preserved and the join appends another
newline). -/
theorem set_config_line_two_newlines_counterexample :
    (set_config_line "Foo x\n\n" "Foo" "bar").1 = "Foo bar\n\n"
    ∧ endsWithExactlyOneNL (set_config_line "Foo x\n\n" "Foo" "bar").1.data =
        false := by
  constructor
  · decide
  · decide

/-- C2 counterexample: with key `"K-"` (ending in a non-word character,
so the canonical line fails the `\b` in the replacement pattern) the
second application appends a duplicate line: `changed` is true again and
the content differs after one and two applications. -/
theorem set_config_line_not_idempotent_counterexample :
    (set_config_line (set_config_line "" "K-" "v").1 "K-" "v").2 = true
    ∧ (set_config_line (set_config_line "" "K-" "v").1 "K-" "v").1 ≠
        (set_config_line "" "K-" "v").1 := by
  constructor
  · decide
  · decide

theorem slAux_no_break (acc cs : List Char) :
    (∀ c ∈ acc, isLineBreak c = false) →
    ∀ l ∈ slAux acc cs, ∀ c ∈ l, isLineBreak c = false := by
  induction acc, cs using slAux.induct with
  | case1 acc =>
    intro hacc l hl c hc
    simp only [slAux, List.mem_singleton] at hl
    subst hl
    exact hacc c (List.mem_reverse.1 hc)
  | case2 acc =>
    intro hacc l hl c hc
    rw [show slAux acc ['\r'] = [acc.reverse] from rfl] at hl
    simp only [List.mem_singleton] at hl
    subst hl
    exact hacc c (List.mem_reverse.1 hc)
  | case3 acc =>
    intro hacc l hl c hc
    rw [show slAux acc ['\r', '\n'] = [acc.reverse] from rfl] at hl
    simp only [List.mem_singleton] at hl
    subst hl
    exact hacc c (List.mem_reverse.1 hc)
  | case4 acc head tail ih =>
    intro hacc l hl c hc
    rw [show slAux acc ('\r' :: '\n' :: head :: tail) =
        acc.reverse :: slAux [] (head :: tail) from by simp [slAux]] at hl
    rcases List.mem_cons.1 hl with rfl | hl'
    · exact hacc c (List.mem_reverse.1 hc)
    · exact ih (by simp) l hl' c hc
  | case5 acc head tail hne ih =>
    intro hacc l hl c hc
    rw [show slAux acc ('\r' :: head :: tail) =
        acc.reverse :: slAux [] (head :: tail) from by simp [slAux, hne]] at hl
    rcases List.mem_cons.1 hl with rfl | hl'
    · exact hacc c (List.mem_reverse.1 hc)
    · exact ih (by simp) l hl' c hc
  | case6 acc c0 hner hbr =>
    intro hacc l hl c hc
    rw [show slAux acc [c0] = [acc.reverse] from by simp [slAux, hner, hbr]] at hl
    simp only [List.mem_singleton] at hl
    subst hl
    exact hacc c (List.mem_reverse.1 hc)
  | case7 acc c0 hner hbr head tail ih =>
    intro hacc l hl c hc
    rw [show slAux acc (c0 :: head :: tail) =
        acc.reverse :: slAux [] (head :: tail) from by
      simp [slAux, hner, hbr]] at hl
    rcases List.mem_cons.1 hl with rfl | hl'
    · exact hacc c (List.mem_reverse.1 hc)
    · exact ih (by simp) l hl' c hc
  | case8 acc c0 rest hner hnbr ih =>
    intro hacc l hl c hc
    rw [show slAux acc (c0 :: rest) = slAux (c0 :: acc) rest from by
      rw [slAux.eq_def]; simp [hner, hnbr]] at hl
    refine ih ?_ l hl c hc
    intro x hx
    rcases List.mem_cons.1 hx with rfl | hx'
    · simpa using hnbr
    · exact hacc x hx'

theorem slAux_append_no_break (l : List Char) :
    ∀ (acc cs : List Char), (∀ c ∈ l, isLineBreak c = false) →
      slAux acc (l ++ cs) = slAux (l.reverse ++ acc) cs := by
  induction l with
  | nil => intro acc cs _; simp
  | cons c l' ih =>
    intro acc cs hl
    have hc : isLineBreak c = false := hl c (List.mem_cons_self c l')
    have hcr : ¬(c = '\r') := by
      intro h
      subst h
      simp [isLineBreak] at hc
    rw [List.cons_append]
    rw [show slAux acc (c :: (l' ++ cs)) = slAux (c :: acc) (l' ++ cs) from by
      rw [slAux.eq_def]; simp [hcr, hc]]
    rw [ih (c :: acc) cs (fun x hx => hl x (List.mem_cons_of_mem _ hx))]
    simp

theorem pySplitlines_of_ne_nil (cs : List Char) (h : cs ≠ []) :
    pySplitlines cs = slAux [] cs := by
  cases cs with
  | nil => exact absurd rfl h
  | cons c cs' => rfl

theorem pySplitlines_no_break (cs : List Char) :
    ∀ l ∈ pySplitlines cs, ∀ c ∈ l, isLineBreak c = false := by
  cases cs with
  | nil => intro l hl; simp [pySplitlines] at hl
  | cons c0 cs0 =>
    intro l hl
    exact slAux_no_break [] (c0 :: cs0) (by simp) l hl

theorem pySplitlines_joinNL (out : List (List Char)) :
    out ≠ [] → (∀ l ∈ out, ∀ c ∈ l, isLineBreak c = false) →
    pySplitlines (joinNL out ++ ['\n']) = out := by
  induction out with
  | nil => intro hne; exact absurd rfl hne
  | cons l ls ih =>
    intro _ hnb
    have hl : ∀ c ∈ l, isLineBreak c = false := hnb l (List.mem_cons_self l ls)
    cases ls with
    | nil =>
      show pySplitlines (l ++ ['\n']) = [l]
      rw [pySplitlines_of_ne_nil _ (by simp),
        slAux_append_no_break l [] ['\n'] hl, List.append_nil]
      rw [show slAux l.reverse ['\n'] = [l.reverse.reverse] from by
        simp [slAux, isLineBreak]]
      simp
    | cons l2 rest =>
      have hY : joinNL (l2 :: rest) ++ ['\n'] ≠ [] := by simp
      show pySplitlines ((l ++ '\n' :: joinNL (l2 :: rest)) ++ ['\n']) =
        l :: l2 :: rest
      rw [show (l ++ '\n' :: joinNL (l2 :: rest)) ++ ['\n'] =
          l ++ '\n' :: (joinNL (l2 :: rest) ++ ['\n']) from by simp]
      rw [pySplitlines_of_ne_nil _ (by simp),
        slAux_append_no_break l [] _ hl, List.append_nil]
      cases hY2 : joinNL (l2 :: rest) ++ ['\n'] with
      | nil => exact absurd hY2 hY
      | cons y ys =>
        rw [show slAux l.reverse ('\n' :: y :: ys) =
            l.reverse.reverse :: slAux [] (y :: ys) from by
          simp [slAux, isLineBreak]]
        rw [List.reverse_reverse]
        have := ih (by simp) (fun x hx => hnb x (List.mem_cons_of_mem _ hx))
        rw [hY2, pySplitlines_of_ne_nil _ (by simp)] at this
        rw [this]

theorem sclLoop_mem (key canon : List Char) (ls : List (List Char)) :
    ∀ x ∈ (sclLoop key canon ls).1,
      x = canon ∨ (setPatMatch key x = false ∧ x ∈ ls) := by
  induction ls with
  | nil => intro x hx; simp [sclLoop] at hx
  | cons l ls' ih =>
    intro x hx
    simp only [sclLoop] at hx
    by_cases h : setPatMatch key l = true
    · simp only [h, if_true] at hx
      rcases List.mem_cons.1 hx with rfl | hx'
      · exact Or.inl rfl
      · rcases ih x hx' with h' | ⟨h1, h2⟩
        · exact Or.inl h'
        · exact Or.inr ⟨h1, List.mem_cons_of_mem _ h2⟩
    · have hf : setPatMatch key l = false := by simpa using h
      simp only [hf, Bool.false_eq_true, if_false] at hx
      rcases List.mem_cons.1 hx with rfl | hx'
      · exact Or.inr ⟨hf, List.mem_cons_self _ _⟩
      · rcases ih x hx' with h' | ⟨h1, h2⟩
        · exact Or.inl h'
        · exact Or.inr ⟨h1, List.mem_cons_of_mem _ h2⟩

theorem sclLoop_found_mem (key canon : List Char) (ls : List (List Char))
    (h : (sclLoop key canon ls).2 = true) : canon ∈ (sclLoop key canon ls).1 := by
  induction ls with
  | nil => simp [sclLoop] at h
  | cons l ls' ih =>
    simp only [sclLoop] at h ⊢
    by_cases hm : setPatMatch key l = true
    · simp [hm]
    · have hf : setPatMatch key l = false := by simpa using hm
      simp only [hf, Bool.false_eq_true, if_false] at h ⊢
      exact List.mem_cons_of_mem _ (ih h)

theorem sclLoop_mem_found (key canon : List Char) (ls : List (List Char))
    (hc : canon ∈ ls) (hm : setPatMatch key canon = true) :
    (sclLoop key canon ls).2 = true := by
  induction ls with
  | nil => simp at hc
  | cons l ls' ih =>
    simp only [sclLoop]
    by_cases h : setPatMatch key l = true
    · simp [h]
    · have hf : setPatMatch key l = false := by simpa using h
      simp only [hf, Bool.false_eq_true, if_false]
      rcases List.mem_cons.1 hc with rfl | hc'
      · exact absurd hm (by simp [hf])
      · exact ih hc'

theorem sclLoop_id (key canon : List Char) (ls : List (List Char))
    (hall : ∀ x ∈ ls, setPatMatch key x = true → x = canon) :
    (sclLoop key canon ls).1 = ls := by
  induction ls with
  | nil => rfl
  | cons l ls' ih =>
    simp only [sclLoop]
    have ih' := ih fun x hx => hall x (List.mem_cons_of_mem _ hx)
    by_cases h : setPatMatch key l = true
    · have hl : l = canon := hall l (List.mem_cons_self l ls') h
      subst hl
      simp [h, ih']
    · have hf : setPatMatch key l = false := by simpa using h
      simp [hf, ih']

theorem ciCharEq_self (c : Char) : ciCharEq c c = true := by
  simp [ciCharEq]

theorem matchKeyFrom_self (key : List Char) :
    ∀ (prev : Option Char) (cs : List Char),
      (∃ c, key.getLast? = some c ∧ isWordChar c = true) →
      headIsWord cs = false →
      matchKeyFrom key prev (key ++ cs) = true := by
  induction key with
  | nil =>
    intro prev cs hlast _
    obtain ⟨c, hc, _⟩ := hlast
    simp at hc
  | cons k ks ih =>
    intro prev cs hlast hcs
    cases ks with
    | nil =>
      obtain ⟨c, hc, hw⟩ := hlast
      have hkc : k = c := by simpa using hc
      subst hkc
      show matchKeyFrom [k] prev (k :: cs) = true
      rw [matchKeyFrom, ciCharEq_self, matchKeyFrom, wordBoundaryAfter]
      simp [prevIsWord, hw, hcs]
    | cons k2 ks2 =>
      obtain ⟨c, hc, hw⟩ := hlast
      rw [List.getLast?_cons_cons] at hc
      show matchKeyFrom (k :: k2 :: ks2) prev (k :: ((k2 :: ks2) ++ cs)) = true
      rw [matchKeyFrom, ciCharEq_self]
      simpa using ih (some k) cs ⟨c, hc, hw⟩ hcs

theorem setPatMatch_self (key value : List Char)
    (hlast : ∃ c, key.getLast? = some c ∧ isWordChar c = true) :
    setPatMatch key (key ++ ' ' :: value) = true := by
  obtain ⟨c0, hc0, hw0⟩ := hlast
  have hm : matchKeyFrom key none (key ++ ' ' :: value) = true :=
    matchKeyFrom_self key none (' ' :: value) ⟨c0, hc0, hw0⟩ rfl
  cases key with
  | nil => simp at hc0
  | cons k ks =>
    show setPatMatch (k :: ks) (k :: (ks ++ ' ' :: value)) = true
    rw [setPatMatch, wsAlts]
    simp only [List.any_cons, Bool.or_eq_true]
    left
    left
    rw [wsAlts]
    simp only [List.any_cons, Bool.or_eq_true]
    left
    exact hm

theorem no_break_last_not_nl (out : List (List Char))
    (hnb : ∀ l ∈ out, ∀ c ∈ l, isLineBreak c = false) :
    endsWithNLChar (out.getLast?.getD []) = false := by
  cases hlast : out.getLast? with
  | none => rfl
  | some l =>
    have hl : l ∈ out := List.mem_of_mem_getLast? (by rw [hlast]; rfl)
    cases hll : l.getLast? with
    | none => simp [endsWithNLChar, hll]
    | some c =>
      have hc : c ∈ l := List.mem_of_mem_getLast? (by rw [hll]; rfl)
      have hnl := hnb l hl c hc
      have hcne : ¬(c = '\n') := by
        intro h
        subst h
        simp [isLineBreak] at hnl
      simp [endsWithNLChar, hll, hcne]

theorem sclOut_no_break (current key value : List Char)
    (hkey : ∀ c ∈ key, isLineBreak c = false)
    (hval : ∀ c ∈ value, isLineBreak c = false) :
    ∀ l ∈ sclOut current key value, ∀ c ∈ l, isLineBreak c = false := by
  have hcanon : ∀ c ∈ key ++ ' ' :: value, isLineBreak c = false := by
    intro c hc
    rcases List.mem_append.1 hc with h | h
    · exact hkey c h
    · rcases List.mem_cons.1 h with rfl | h
      · rfl
      · exact hval c h
  intro l hl
  rw [sclOut] at hl
  by_cases h2 : (sclLoop key (key ++ ' ' :: value) (pySplitlines current)).2 = true
  · rw [if_pos h2] at hl
    rcases sclLoop_mem key _ (pySplitlines current) l hl with rfl | ⟨_, hmem⟩
    · exact hcanon
    · exact pySplitlines_no_break current l hmem
  · rw [if_neg h2] at hl
    rcases List.mem_append.1 hl with hl' | hl'
    · rcases sclLoop_mem key _ (pySplitlines current) l hl' with rfl | ⟨_, hmem⟩
      · exact hcanon
      · exact pySplitlines_no_break current l hmem
    · rw [List.mem_singleton.1 hl']
      exact hcanon

theorem sclOut_canon_mem (current key value : List Char) :
    (key ++ ' ' :: value) ∈ sclOut current key value := by
  rw [sclOut]
  by_cases h2 : (sclLoop key (key ++ ' ' :: value) (pySplitlines current)).2 = true
  · rw [if_pos h2]
    exact sclLoop_found_mem key _ (pySplitlines current) h2
  · rw [if_neg h2]
    exact List.mem_append.2 (Or.inr (List.mem_singleton.2 rfl))

theorem sclOut_matches_are_canon (current key value : List Char) :
    ∀ x ∈ sclOut current key value,
      setPatMatch key x = true → x = key ++ ' ' :: value := by
  intro x hx hm
  rw [sclOut] at hx
  by_cases h2 : (sclLoop key (key ++ ' ' :: value) (pySplitlines current)).2 = true
  · rw [if_pos h2] at hx
    rcases sclLoop_mem key _ (pySplitlines current) x hx with h | ⟨hf, _⟩
    · exact h
    · exact absurd hm (by simp [hf])
  · rw [if_neg h2] at hx
    rcases List.mem_append.1 hx with hx' | hx'
    · rcases sclLoop_mem key _ (pySplitlines current) x hx' with h | ⟨hf, _⟩
      · exact h
      · exact absurd hm (by simp [hf])
    · exact List.mem_singleton.1 hx'

theorem sclNew_eq_join (current key value : List Char)
    (hkey : ∀ c ∈ key, isLineBreak c = false)
    (hval : ∀ c ∈ value, isLineBreak c = false) :
    sclNew current key value = joinNL (sclOut current key value) ++ ['\n'] := by
  rw [sclNew]
  have h := no_break_last_not_nl _ (sclOut_no_break current key value hkey hval)
  simp [h]

theorem pySplitlines_sclNew (current key value : List Char)
    (hkey : ∀ c ∈ key, isLineBreak c = false)
    (hval : ∀ c ∈ value, isLineBreak c = false) :
    pySplitlines (sclNew current key value) = sclOut current key value := by
  rw [sclNew_eq_join current key value hkey hval]
  exact pySplitlines_joinNL _ (sclOut_ne_nil current key value)
    (sclOut_no_break current key value hkey hval)

theorem sclOut_sclNew (current key value : List Char)
    (hkey : ∀ c ∈ key, isLineBreak c = false)
    (hval : ∀ c ∈ value, isLineBreak c = false)
    (hlast : ∃ c, key.getLast? = some c ∧ isWordChar c = true) :
    sclOut (sclNew current key value) key value = sclOut current key value := by
  rw [sclOut, pySplitlines_sclNew current key value hkey hval]
  have hloop2 : (sclLoop key (key ++ ' ' :: value)
      (sclOut current key value)).2 = true :=
    sclLoop_mem_found key _ _ (sclOut_canon_mem current key value)
      (setPatMatch_self key value hlast)
  rw [if_pos hloop2]
  exact sclLoop_id key _ _ (sclOut_matches_are_canon current key value)

theorem sclNew_sclNew (current key value : List Char)
    (hkey : ∀ c ∈ key, isLineBreak c = false)
    (hval : ∀ c ∈ value, isLineBreak c = false)
    (hlast : ∃ c, key.getLast? = some c ∧ isWordChar c = true) :
    sclNew (sclNew current key value) key value = sclNew current key value := by
  rw [sclNew_eq_join (sclNew current key value) key value hkey hval,
    sclOut_sclNew current key value hkey hval hlast,
    ← sclNew_eq_join current key value hkey hval]

theorem setConfigLineL_idempotent (current key value : List Char)
    (hkey : ∀ c ∈ key, isLineBreak c = false)
    (hval : ∀ c ∈ value, isLineBreak c = false)
    (hlast : ∃ c, key.getLast? = some c ∧ isWordChar c = true) :
    setConfigLineL (sclNew current key value) key value =
      (sclNew current key value, false) := by
  rw [setConfigLineL, sclNew_sclNew current key value hkey hval hlast]
  have hnl := sclNew_ends_nl current key value
  have hnorm : pyNormalizeTrailing (sclNew current key value) =
      sclNew current key value := by
    simp [pyNormalizeTrailing, hnl]
  rw [hnorm]
  simp

/-- C2 (amended): applying `set_config_line` a second time with the
identical key and value yields `changed = false` and identical content,
provided the key ends in a word character (letter, digit or underscore)
and neither key nor value contains a line-break character.  (Without the
word-character proviso the canonical replacement line fails the pattern's
`\b` and the claim is false — see the counterexample.) -/
theorem set_config_line_idempotent (current key value : String)
    (hkey : ∀ c ∈ key.data, isLineBreak c = false)
    (hval : ∀ c ∈ value.data, isLineBreak c = false)
    (hlast : ∃ c, key.data.getLast? = some c ∧ isWordChar c = true) :
    set_config_line (set_config_line current key value).1 key value =
      ((set_config_line current key value).1, false) := by
  have h := setConfigLineL_idempotent current.data key.data value.data
    hkey hval hlast
  show (⟨(setConfigLineL (sclNew current.data key.data value.data)
      key.data value.data).1⟩,
    (setConfigLineL (sclNew current.data key.data value.data)
      key.data value.data).2) =
    ((⟨sclNew current.data key.data value.data⟩ : String), false)
  rw [h]

/-- C2 witness: the spec's scenario — flipping `PermitRootLogin` to `no`
and reapplying the identical call. -/
theorem set_config_line_idempotent_witness :
    set_config_line
        (set_config_line "PermitRootLogin yes\n" "PermitRootLogin" "no").1
        "PermitRootLogin" "no" =
      ((set_config_line "PermitRootLogin yes\n" "PermitRootLogin" "no").1,
        false) :=
  set_config_line_idempotent "PermitRootLogin yes\n" "PermitRootLogin" "no"
    (by decide) (by decide) ⟨'n', by decide, by decide⟩

theorem lastOr_cons (c : Char) (w : List Char) (p : Option Char) :
    lastOr (c :: w) p = lastOr w (some c) := by
  cases w with
  | nil => rfl
  | cons c2 w2 =>
    rw [lastOr, lastOr, List.getLast?_cons_cons]
    cases hg : (c2 :: w2).getLast? with
    | none =>
      have : c2 :: w2 ≠ [] := by simp
      rw [← List.getLast?_isSome, hg] at this
      simp at this
    | some x => rfl

theorem lastOr_append (a b : List Char) (p : Option Char) :
    lastOr (a ++ b) p = lastOr b (lastOr a p) := by
  induction a generalizing p with
  | nil => rfl
  | cons c a' ih =>
    rw [List.cons_append, lastOr_cons, ih (some c), lastOr_cons]

theorem lastOr_eq_getLast? (w : List Char) (p : Option Char) (h : w ≠ []) :
    lastOr w p = w.getLast? := by
  induction w generalizing p with
  | nil => exact absurd rfl h
  | cons c ws ih =>
    cases ws with
    | nil => rfl
    | cons c2 ws2 =>
      rw [lastOr_cons, ih (some c) (by simp), List.getLast?_cons_cons]

theorem wsAlts_mem (cs : List Char) :
    ∀ (prev : Option Char) (pc : Option Char × List Char),
      pc ∈ wsAlts prev cs ↔
        ∃ w, cs = w ++ pc.2 ∧ (∀ c ∈ w, pyIsSpace c = true) ∧
          pc.1 = lastOr w prev := by
  induction cs with
  | nil =>
    intro prev pc
    simp only [wsAlts, List.mem_singleton]
    constructor
    · rintro rfl
      exact ⟨[], rfl, by simp, rfl⟩
    · rintro ⟨w, hw, _, hp⟩
      cases w with
      | cons c ws => exact absurd hw (by simp)
      | nil =>
        obtain ⟨a, b⟩ := pc
        simp only [List.nil_append] at hw
        have hp' : a = prev := hp
        have hw' : [] = b := hw
        rw [hp', ← hw']
  | cons c cs0 ih =>
    intro prev pc
    rw [wsAlts]
    by_cases hsp : pyIsSpace c = true
    · rw [if_pos hsp]
      rw [List.mem_cons]
      constructor
      · rintro (rfl | hmem)
        · exact ⟨[], rfl, by simp, rfl⟩
        · obtain ⟨w0, hw0, hws0, hp0⟩ := (ih (some c) pc).1 hmem
          refine ⟨c :: w0, by rw [List.cons_append, hw0], ?_, ?_⟩
          · intro x hx
            rcases List.mem_cons.1 hx with rfl | hx'
            · exact hsp
            · exact hws0 x hx'
          · rw [hp0, lastOr_cons]
      · rintro ⟨w, hw, hws, hp⟩
        cases w with
        | nil =>
          left
          obtain ⟨a, b⟩ := pc
          simp only [List.nil_append] at hw
          have hp' : a = prev := hp
          have hw' : c :: cs0 = b := hw
          rw [hp', ← hw']
        | cons c1 w0 =>
          right
          rw [List.cons_append] at hw
          injection hw with h1 h2
          subst h1
          refine (ih (some c) pc).2
            ⟨w0, h2, fun x hx => hws x (List.mem_cons_of_mem _ hx), ?_⟩
          rw [hp, lastOr_cons]
    · rw [if_neg hsp]
      simp only [List.mem_singleton]
      constructor
      · rintro rfl
        exact ⟨[], rfl, by simp, rfl⟩
      · rintro ⟨w, hw, hws, hp⟩
        cases w with
        | cons c1 w0 =>
          rw [List.cons_append] at hw
          injection hw with h1 _
          exact absurd (h1 ▸ hws c1 (List.mem_cons_self _ _)) (by simp [hsp])
        | nil =>
          obtain ⟨a, b⟩ := pc
          simp only [List.nil_append] at hw
          have hp' : a = prev := hp
          have hw' : c :: cs0 = b := hw
          rw [hp', ← hw']

theorem wsPlusAlts_mem (prev : Option Char) (cs : List Char)
    (pc : Option Char × List Char) :
    pc ∈ wsPlusAlts prev cs ↔
      ∃ w, w ≠ [] ∧ cs = w ++ pc.2 ∧ (∀ c ∈ w, pyIsSpace c = true) ∧
        pc.1 = lastOr w prev := by
  cases cs with
  | nil =>
    rw [wsPlusAlts]
    constructor
    · intro h
      simp at h
    · rintro ⟨w, hwne, hw, _, _⟩
      cases w with
      | nil => exact absurd rfl hwne
      | cons c ws => exact absurd hw (by simp)
  | cons c cs0 =>
    rw [wsPlusAlts]
    by_cases hsp : pyIsSpace c = true
    · rw [if_pos hsp]
      constructor
      · intro h1
        obtain ⟨w0, hw0, hws0, hp0⟩ := (wsAlts_mem cs0 (some c) pc).1 h1
        refine ⟨c :: w0, by simp, by rw [List.cons_append, hw0], ?_, ?_⟩
        · intro x hx
          rcases List.mem_cons.1 hx with rfl | hx'
          · exact hsp
          · exact hws0 x hx'
        · rw [hp0, lastOr_cons]
      · rintro ⟨w, hwne, hw, hws, hp⟩
        cases w with
        | nil => exact absurd rfl hwne
        | cons c1 w0 =>
          rw [List.cons_append] at hw
          injection hw with h1 h2
          subst h1
          exact (wsAlts_mem cs0 (some c) pc).2
            ⟨w0, h2, fun x hx => hws x (List.mem_cons_of_mem _ hx),
             by rw [hp, lastOr_cons]⟩
    · rw [if_neg hsp]
      constructor
      · intro h
        simp at h
      · rintro ⟨w, hwne, hw, hws, _⟩
        cases w with
        | nil => exact absurd rfl hwne
        | cons c1 w0 =>
          rw [List.cons_append] at hw
          injection hw with h1 _
          exact absurd (h1 ▸ hws c1 (List.mem_cons_self _ _)) (by simp [hsp])

theorem matchLit_some (lit : List Char) :
    ∀ (prev : Option Char) (cs : List Char) (pc : Option Char × List Char),
      matchLit lit prev cs = some pc ↔
        cs = lit ++ pc.2 ∧ pc.1 = lastOr lit prev := by
  induction lit with
  | nil =>
    intro prev cs pc
    rw [matchLit]
    constructor
    · intro h
      injection h with h'
      subst h'
      exact ⟨rfl, rfl⟩
    · rintro ⟨h1, h2⟩
      obtain ⟨a, b⟩ := pc
      have h1' : cs = b := h1
      have h2' : a = prev := h2
      rw [h1', h2']
  | cons l ls ih =>
    intro prev cs pc
    cases cs with
    | nil =>
      rw [matchLit]
      constructor
      · intro h
        exact absurd h (by simp)
      · rintro ⟨h1, _⟩
        exact absurd h1 (by simp)
    | cons c cs0 =>
      rw [matchLit]
      by_cases hlc : (l == c) = true
      · rw [if_pos hlc]
        have hlceq : l = c := eq_of_beq hlc
        subst hlceq
        rw [ih (some l) cs0 pc]
        constructor
        · rintro ⟨h1, h2⟩
          exact ⟨by rw [List.cons_append, h1], by rw [h2, lastOr_cons]⟩
        · rintro ⟨h1, h2⟩
          rw [List.cons_append] at h1
          injection h1 with _ h1'
          exact ⟨h1', by rw [h2, lastOr_cons]⟩
      · rw [if_neg hlc]
        constructor
        · intro h
          exact absurd h (by simp)
        · rintro ⟨h1, _⟩
          rw [List.cons_append] at h1
          injection h1 with h1' _
          exact absurd (by rw [h1']; simp : (l == c) = true) hlc

theorem anchorsAux_mem (cs : List Char) (pc : Option Char × List Char) :
    pc ∈ anchorsAux cs ↔
      ∃ pre, cs = pre ++ '\n' :: pc.2 ∧ pc.1 = some '\n' := by
  induction cs with
  | nil =>
    simp only [anchorsAux, List.not_mem_nil, false_iff]
    rintro ⟨pre, hpre, _⟩
    exact absurd hpre (by simp)
  | cons c cs0 ih =>
    rw [anchorsAux, List.mem_append]
    constructor
    · rintro (h | h)
      · by_cases hc : c = '\n'
        · rw [if_pos hc] at h
          simp only [List.mem_singleton] at h
          subst h
          exact ⟨[], by rw [hc]; rfl, rfl⟩
        · rw [if_neg hc] at h
          simp at h
      · obtain ⟨pre0, hpre0, hp⟩ := ih.1 h
        exact ⟨c :: pre0, by rw [List.cons_append, hpre0], hp⟩
    · rintro ⟨pre, hpre, hp⟩
      cases pre with
      | nil =>
        left
        simp only [List.nil_append] at hpre
        injection hpre with h1 h2
        rw [if_pos h1]
        obtain ⟨a, b⟩ := pc
        have hp' : a = some '\n' := hp
        have h2' : cs0 = b := h2
        rw [List.mem_singleton, hp', h2']
      | cons c1 pre0 =>
        right
        rw [List.cons_append] at hpre
        injection hpre with _ h2
        exact ih.2 ⟨pre0, h2, hp⟩

theorem getLast?_concat_decomp (l : List Char) (a : Char)
    (h : l.getLast? = some a) : ∃ l0, l = l0 ++ [a] := by
  induction l with
  | nil => simp at h
  | cons c ls ih =>
    cases ls with
    | nil =>
      simp only [List.getLast?_singleton, Option.some.injEq] at h
      exact ⟨[], by rw [h]; rfl⟩
    | cons c2 ls2 =>
      rw [List.getLast?_cons_cons] at h
      obtain ⟨l0, hl0⟩ := ih h
      exact ⟨c :: l0, by rw [List.cons_append, ← hl0]⟩

theorem verifyMatchAt_iff (key value : List Char) (prev : Option Char)
    (cs : List Char) :
    verifyMatchAt key value prev cs = true ↔
      ∃ w1 w2 rest, cs = w1 ++ key ++ w2 ++ value ++ rest ∧
        (∀ c ∈ w1, pyIsSpace c = true) ∧
        w2 ≠ [] ∧ (∀ c ∈ w2, pyIsSpace c = true) ∧
        wordBoundaryAfter (lastOr (w1 ++ key ++ w2 ++ value) prev) rest =
          true := by
  rw [verifyMatchAt, List.any_eq_true]
  constructor
  · rintro ⟨pc1, hpc1, hf⟩
    obtain ⟨w1, hw1, hws1, hp1⟩ := (wsAlts_mem cs prev pc1).1 hpc1
    cases hm1 : matchLit key pc1.1 pc1.2 with
    | none => rw [hm1] at hf; simp at hf
    | some pc2 =>
      rw [hm1] at hf
      rw [List.any_eq_true] at hf
      obtain ⟨pc3, hpc3, hg⟩ := hf
      obtain ⟨hkey2, hp2⟩ := (matchLit_some key pc1.1 pc1.2 pc2).1 hm1
      obtain ⟨w2, hw2ne, hw2, hws2, hp3⟩ :=
        (wsPlusAlts_mem pc2.1 pc2.2 pc3).1 hpc3
      cases hm2 : matchLit value pc3.1 pc3.2 with
      | none => rw [hm2] at hg; simp at hg
      | some pc4 =>
        rw [hm2] at hg
        obtain ⟨hval2, hp4⟩ := (matchLit_some value pc3.1 pc3.2 pc4).1 hm2
        refine ⟨w1, w2, pc4.2, ?_, hws1, hw2ne, hws2, ?_⟩
        · rw [hw1, hkey2, hw2, hval2]
          simp [List.append_assoc]
        · have hcomp : pc4.1 = lastOr (w1 ++ key ++ w2 ++ value) prev := by
            rw [hp4, hp3, hp2, hp1, lastOr_append, lastOr_append,
              lastOr_append]
          rw [← hcomp]
          exact hg
  · rintro ⟨w1, w2, rest, hcs, hws1, hw2ne, hws2, hb⟩
    refine ⟨(lastOr w1 prev, key ++ (w2 ++ (value ++ rest))), ?_, ?_⟩
    · refine (wsAlts_mem cs prev _).2 ⟨w1, ?_, hws1, rfl⟩
      rw [hcs]
      simp [List.append_assoc]
    · have hm1 : matchLit key (lastOr w1 prev)
          (key ++ (w2 ++ (value ++ rest))) =
          some (lastOr key (lastOr w1 prev), w2 ++ (value ++ rest)) :=
        (matchLit_some key _ _ _).2 ⟨rfl, rfl⟩
      simp only [hm1, List.any_eq_true]
      refine ⟨(lastOr w2 (lastOr key (lastOr w1 prev)), value ++ rest),
        ?_, ?_⟩
      · exact (wsPlusAlts_mem _ _ _).2 ⟨w2, hw2ne, rfl, hws2, rfl⟩
      · have hm2 : matchLit value
            (lastOr w2 (lastOr key (lastOr w1 prev))) (value ++ rest) =
            some (lastOr value (lastOr w2 (lastOr key (lastOr w1 prev))),
              rest) :=
          (matchLit_some value _ _ _).2 ⟨rfl, rfl⟩
        simp only [hm2]
        have hcomp : lastOr value (lastOr w2 (lastOr key (lastOr w1 prev))) =
            lastOr (w1 ++ key ++ w2 ++ value) prev := by
          rw [lastOr_append, lastOr_append, lastOr_append]
        rw [hcomp]
        exact hb

theorem verify_chunk_ne_nil (w1 k w2 v : List Char) (hw2ne : w2 ≠ []) :
    w1 ++ k ++ w2 ++ v ≠ [] := by
  intro hnil
  rcases List.append_eq_nil.1 hnil with ⟨h1, _⟩
  rcases List.append_eq_nil.1 h1 with ⟨_, h3⟩
  exact hw2ne h3

/-- C9 (amended): `verify_config_line` returns true iff, starting at the
beginning of some line, the document contains optional whitespace
(possibly spanning line breaks), the key, at least one whitespace
character, and the value, followed by a word boundary (end of text or a
character whose word-ness differs from the last matched character).  The
bare claim — some line matches key-then-value at start of line — omits
the trailing word boundary and fails (see the counterexample). -/
theorem verify_config_line_iff (content key value : String) :
    verify_config_line content key value = true ↔
      VerifySpec content key value := by
  rw [verify_config_line, List.any_cons, Bool.or_eq_true]
  constructor
  · intro h
    rcases h with h | h
    · obtain ⟨w1, w2, rest, hcs, hws1, hw2ne, hws2, hb⟩ :=
        (verifyMatchAt_iff _ _ none _).1 h
      refine ⟨[], w1, w2, rest, by simpa using hcs, Or.inl rfl, hws1,
        hw2ne, hws2, ?_⟩
      rw [← lastOr_eq_getLast? _ none
        (verify_chunk_ne_nil w1 key.data w2 value.data hw2ne)]
      exact hb
    · rw [List.any_eq_true] at h
      obtain ⟨pc, hpc, hf⟩ := h
      obtain ⟨pre0, hpre0, hp⟩ := (anchorsAux_mem _ _).1 hpc
      obtain ⟨w1, w2, rest, hcs, hws1, hw2ne, hws2, hb⟩ :=
        (verifyMatchAt_iff _ _ pc.1 pc.2).1 hf
      refine ⟨pre0 ++ ['\n'], w1, w2, rest, ?_, Or.inr ?_, hws1, hw2ne,
        hws2, ?_⟩
      · rw [hpre0, hcs]
        simp [List.append_assoc]
      · rw [List.getLast?_append_cons]
        rfl
      · rw [← lastOr_eq_getLast? _ pc.1
          (verify_chunk_ne_nil w1 key.data w2 value.data hw2ne)]
        exact hb
  · rintro ⟨pre, w1, w2, rest, hcs, hpre, hws1, hw2ne, hws2, hb⟩
    have hchunk := verify_chunk_ne_nil w1 key.data w2 value.data hw2ne
    rcases hpre with rfl | hpre'
    · left
      refine (verifyMatchAt_iff _ _ none _).2
        ⟨w1, w2, rest, by simpa using hcs, hws1, hw2ne, hws2, ?_⟩
      rw [lastOr_eq_getLast? _ none hchunk]
      exact hb
    · right
      obtain ⟨pre0, rfl⟩ := getLast?_concat_decomp pre '\n' hpre'
      rw [List.any_eq_true]
      refine ⟨(some '\n', w1 ++ (key.data ++ (w2 ++ (value.data ++ rest)))),
        ?_, ?_⟩
      · refine (anchorsAux_mem _ _).2 ⟨pre0, ?_, rfl⟩
        rw [hcs]
        simp [List.append_assoc]
      · refine (verifyMatchAt_iff _ _ (some '\n') _).2
          ⟨w1, w2, rest, by simp [List.append_assoc], hws1, hw2ne, hws2, ?_⟩
        rw [lastOr_eq_getLast? _ (some '\n') hchunk]
        exact hb

/-- C9 witness: an uncommented `PermitRootLogin no` line verifies. -/
theorem verify_config_line_iff_witness :
    verify_config_line "PermitRootLogin no\n" "PermitRootLogin" "no" = true :=
  (verify_config_line_iff "PermitRootLogin no\n" "PermitRootLogin" "no").2
    ⟨[], [], [' '], ['\n'], by decide, Or.inl rfl, by decide, by decide,
     by decide, by decide⟩

/-- C9 counterexample: the document `"K v."` consists of the key `"K"`
followed by the value `"v."` at start of line, uncommented — yet
`verify_config_line` returns false, because the `\b` after the value
fails when the value ends in a non-word character. -/
theorem verify_config_line_claim_counterexample :
    verify_config_line "K v." "K" "v." = false ∧ C9ClaimPred "K v." "K" "v." := by
  refine ⟨by decide,
    ⟨"K v.".data, by decide, [], [' '], [], by decide, by decide, by decide,
     by decide⟩⟩

end NomanAI
